import Mathlib

/-!
Verification development for the time-windowed tweet collection engine
(`scripts/scrape.py`): window generation, the cursor-pagination fetch loop,
resume bookkeeping (seen ids and covered months reconstructed from the CSV
store), and the orchestrator `fetch_all_tweets`.

Dates are shallowly embedded as `(year, month, day)` triples of naturals.
Python `date` comparison is total calendar order; here dates are compared
through the strictly monotone key `year * 500 + month * 35 + day`, which
agrees with calendar order on all valid dates (month at most 12, day at
most 31, so `month * 35 + day` is below 500 and determines the pair).
-/

namespace Scrape

/-- Calendar date, mirroring Python `datetime.date` values. -/
structure Date where
  year : Nat
  month : Nat
  day : Nat
deriving DecidableEq, Repr

/-- Gregorian leap-year test, as in `calendar.isleap` / `datetime`. -/
def isLeapYear (y : Nat) : Bool :=
  y % 4 = 0 && (y % 100 != 0 || y % 400 = 0)

/-- Number of days in a month, as used by `datetime` and `relativedelta`. -/
def daysInMonth (y m : Nat) : Nat :=
  if m = 2 then (if isLeapYear y then 29 else 28)
  else if m = 4 || m = 6 || m = 9 || m = 11 then 30
  else 31

/-- Monotone key embedding calendar order: on valid dates
`toKey a < toKey b` holds exactly when `a` is an earlier date than `b`. -/
def Date.toKey (d : Date) : Nat :=
  d.year * 500 + d.month * 35 + d.day

/-- A date the Python `datetime.date` constructor accepts (with a positive
year, as every date handled by the scraper has). -/
def Date.Valid (d : Date) : Prop :=
  1 ≤ d.year ∧ 1 ≤ d.month ∧ d.month ≤ 12 ∧ 1 ≤ d.day ∧ d.day ≤ daysInMonth d.year d.month

instance (d : Date) : Decidable d.Valid := by
  unfold Date.Valid; infer_instance

/-- Key of `strftime("%Y-%m")`: calendar month of a date.  The Python code
keys coverage by the formatted string; `(year, month)` is its image under
the evident injection. -/
def Date.monthKey (d : Date) : Nat × Nat :=
  (d.year, d.month)

/-- Subtraction of `relativedelta(months=1)`: step the month down by one
(borrowing from the year at January) and clamp the day to the length of the
resulting month, exactly as `dateutil.relativedelta` does. -/
def subMonth (d : Date) : Date :=
  if d.month = 1 then
    ⟨d.year - 1, 12, min d.day (daysInMonth (d.year - 1) 12)⟩
  else
    ⟨d.year, d.month - 1, min d.day (daysInMonth d.year (d.month - 1))⟩

theorem daysInMonth_pos (y m : Nat) : 1 ≤ daysInMonth y m := by
  unfold daysInMonth
  split
  · split <;> omega
  · split <;> omega

theorem daysInMonth_le (y m : Nat) : daysInMonth y m ≤ 31 := by
  unfold daysInMonth
  split
  · split <;> omega
  · split <;> omega

theorem toKey_subMonth_lt {d : Date} (h1 : 1 ≤ d.year) (h2 : 1 ≤ d.month) :
    (subMonth d).toKey < d.toKey := by
  unfold subMonth
  by_cases hm : d.month = 1
  · rw [if_pos hm]
    have ha := daysInMonth_le (d.year - 1) 12
    have hb := Nat.min_le_right d.day (daysInMonth (d.year - 1) 12)
    unfold Date.toKey
    simp only
    omega
  · rw [if_neg hm]
    have hb := Nat.min_le_left d.day (daysInMonth d.year (d.month - 1))
    unfold Date.toKey
    simp only
    omega

theorem subMonth_month_bounds {d : Date} (h2 : 1 ≤ d.month) (h3 : d.month ≤ 12) :
    1 ≤ (subMonth d).month ∧ (subMonth d).month ≤ 12 := by
  unfold subMonth
  by_cases hm : d.month = 1
  · rw [if_pos hm]
    exact ⟨by show (1:Nat) ≤ 12; omega, by show (12:Nat) ≤ 12; omega⟩
  · rw [if_neg hm]; exact ⟨by simp only; omega, by simp only; omega⟩

theorem subMonth_day_bounds {d : Date} (h4 : 1 ≤ d.day) :
    1 ≤ (subMonth d).day ∧ (subMonth d).day ≤ daysInMonth (subMonth d).year (subMonth d).month := by
  unfold subMonth
  by_cases hm : d.month = 1
  · rw [if_pos hm]
    exact ⟨le_min h4 (daysInMonth_pos _ _), Nat.min_le_right _ _⟩
  · rw [if_neg hm]
    exact ⟨le_min h4 (daysInMonth_pos _ _), Nat.min_le_right _ _⟩

theorem toKey_year_ge {d : Date} (hm : d.month ≤ 12) (hday : d.day ≤ 31)
    (hk : 500 ≤ d.toKey) : 1 ≤ d.year := by
  unfold Date.toKey at hk
  by_contra h
  omega

/-- Loop body of `generate_monthly_windows`, with explicit fuel standing in
for the Python `while current_end > start` loop.  Each iteration subtracts
one month from the current upper bound, clamps the lower bound to `start`,
and records the window `(current_start, current_end)` newest-first. -/
def genGo (start : Date) : Date → Nat → List (Date × Date)
  | _, 0 => []
  | cur, fuel + 1 =>
    if start.toKey < cur.toKey then
      let s0 := subMonth cur
      let s := if s0.toKey < start.toKey then start else s0
      (s, cur) :: genGo start s fuel
    else []

/-- Model of `generate_monthly_windows(start, end)`: monthly time windows
from newest to oldest.  The fuel `end.toKey` strictly exceeds the number of
loop iterations, since the loop variable strictly decreases in key each
step. -/
def generate_monthly_windows (start e : Date) : List (Date × Date) :=
  genGo start e e.toKey

theorem toKey_inj {a b : Date}
    (ha2 : a.month ≤ 12) (ha3 : a.day ≤ 31)
    (hb2 : b.month ≤ 12) (hb3 : b.day ≤ 31)
    (ha1 : 1 ≤ a.month) (ha4 : 1 ≤ a.day) (hb1 : 1 ≤ b.month) (hb4 : 1 ≤ b.day)
    (h : a.toKey = b.toKey) : a = b := by
  obtain ⟨ay, am, ad⟩ := a
  obtain ⟨by_, bm, bd⟩ := b
  unfold Date.toKey at h
  simp only at h ha1 ha2 ha3 ha4 hb1 hb2 hb3 hb4
  simp only [Date.mk.injEq]
  have hy : ay = by_ := by omega
  subst hy
  have hm : am = bm := by omega
  subst hm
  omega

/-- Weak validity shape preserved along the generator loop. -/
def DShape (d : Date) : Prop :=
  1 ≤ d.month ∧ d.month ≤ 12 ∧ 1 ≤ d.day ∧ d.day ≤ 31

theorem valid_shape {d : Date} (h : d.Valid) : DShape d :=
  ⟨h.2.1, h.2.2.1, h.2.2.2.1, le_trans h.2.2.2.2 (daysInMonth_le _ _)⟩

theorem subMonth_shape {d : Date} (h : DShape d) : DShape (subMonth d) := by
  obtain ⟨h1, h2, h3, h4⟩ := h
  refine ⟨(subMonth_month_bounds h1 h2).1, (subMonth_month_bounds h1 h2).2, ?_, ?_⟩
  · exact (subMonth_day_bounds h3).1
  · exact le_trans (subMonth_day_bounds h3).2 (daysInMonth_le _ _)

theorem shape_year_pos {d : Date} (h : DShape d) (hk : 500 ≤ d.toKey) : 1 ≤ d.year :=
  toKey_year_ge h.2.1 h.2.2.2 hk

/-- Combined invariant of the generator loop, proved by induction on fuel:
the produced windows are contiguous, nonempty, at most one month long, the
first upper bound is the loop variable, and the last lower bound is
`start`. -/
theorem genGo_spec (start : Date) (hs : start.Valid) :
    ∀ (fuel : Nat) (cur : Date), DShape cur → 1 ≤ cur.year →
      cur.toKey ≤ start.toKey + fuel →
      (¬ start.toKey < cur.toKey → genGo start cur fuel = []) ∧
      (start.toKey < cur.toKey →
        genGo start cur fuel ≠ [] ∧
        (genGo start cur fuel).head?.map Prod.snd = some cur) ∧
      List.Chain' (fun w w' => w'.2 = w.1) (genGo start cur fuel) ∧
      (∀ w ∈ genGo start cur fuel,
        w.1.toKey < w.2.toKey ∧ (subMonth w.2).toKey ≤ w.1.toKey) ∧
      (genGo start cur fuel ≠ [] →
        (genGo start cur fuel).getLast?.map Prod.fst = some start) := by
  intro fuel
  induction fuel with
  | zero =>
    intro cur _ _ hfuel
    refine ⟨fun _ => rfl, fun hlt => absurd hlt (by omega), ?_, ?_, ?_⟩
    · simp [genGo]
    · simp [genGo]
    · simp [genGo]
  | succ n ih =>
    intro cur hshape hyear hfuel
    by_cases hlt : start.toKey < cur.toKey
    · have hsub : (subMonth cur).toKey < cur.toKey :=
        toKey_subMonth_lt hyear hshape.1
      have hstartkey : 500 ≤ start.toKey := by
        have h1 := hs.1
        have h2 := hs.2.1
        have h4 := hs.2.2.2.1
        unfold Date.toKey
        omega
      set s0 := subMonth cur with hs0
      set s : Date := if s0.toKey < start.toKey then start else s0 with hsdef
      have hs_shape : DShape s := by
        rw [hsdef]
        split
        · exact valid_shape hs
        · exact subMonth_shape hshape
      have hs_ge : start.toKey ≤ s.toKey := by
        rw [hsdef]
        split
        · exact le_refl _
        · omega
      have hs_lt_cur : s.toKey < cur.toKey := by
        rw [hsdef]
        split
        · exact hlt
        · exact hsub
      have hs_year : 1 ≤ s.year :=
        shape_year_pos hs_shape (le_trans hstartkey hs_ge)
      have hs_fuel : s.toKey ≤ start.toKey + n := by omega
      have hgen : genGo start cur (n + 1) = (s, cur) :: genGo start s n := by
        show (if start.toKey < cur.toKey then _ else _) = _
        rw [if_pos hlt]
      obtain ⟨ihends, ihne, ihchain, ihwins, ihlast⟩ := ih s hs_shape hs_year hs_fuel
      refine ⟨fun h => absurd hlt h, fun _ => ?_, ?_, ?_, ?_⟩
      · constructor
        · rw [hgen]; exact List.cons_ne_nil _ _
        · rw [hgen]; rfl
      · rw [hgen]
        rcases hrec : genGo start s n with _ | ⟨w, ws⟩
        · exact List.chain'_singleton _
        · refine List.chain'_cons.mpr ⟨?_, hrec ▸ ihchain⟩
          have hslt : start.toKey < s.toKey := by
            by_contra hc
            have := ihends hc
            rw [this] at hrec
            exact (List.cons_ne_nil _ _) hrec.symm
          have hhd := (ihne hslt).2
          rw [hrec] at hhd
          simp only [List.head?_cons, Option.map_some] at hhd
          have : w.2 = s := by
            injection hhd with hh
          exact this
      · intro w hw
        rw [hgen, List.mem_cons] at hw
        rcases hw with hw | hw
        · subst hw
          refine ⟨hs_lt_cur, ?_⟩
          show s0.toKey ≤ s.toKey
          rw [hsdef]
          split
          · omega
          · exact le_refl _
        · exact ihwins w hw
      · intro _
        rw [hgen]
        rcases hrec : genGo start s n with _ | ⟨w, ws⟩
        · -- the recursion is empty, so the clamp must have hit `start`
          have hsle : ¬ start.toKey < s.toKey := by
            intro hc
            exact (ihne hc).1 hrec
          have hkey : s.toKey = start.toKey := le_antisymm (by omega) hs_ge
          have hseq : s = start :=
            toKey_inj hs_shape.2.1 hs_shape.2.2.2
              (valid_shape hs).2.1 (valid_shape hs).2.2.2
              hs_shape.1 hs_shape.2.2.1 (valid_shape hs).1 (valid_shape hs).2.2.1 hkey
          simp [hseq]
        · have hl := ihlast (by rw [hrec]; exact List.cons_ne_nil _ _)
          rw [hrec] at hl
          rw [List.getLast?_cons_cons]
          exact hl
    · have hgen : genGo start cur (n + 1) = [] := by
        show (if start.toKey < cur.toKey then _ else _) = _
        rw [if_neg hlt]
      refine ⟨fun _ => hgen, fun h => absurd h hlt, ?_, ?_, ?_⟩
      · rw [hgen]; exact List.chain'_nil
      · rw [hgen]; intro w hw; cases hw
      · rw [hgen]; intro h; exact absurd rfl h

theorem chain_tail_bound :
    ∀ (ws : List (Date × Date)) (w : Date × Date),
      List.Chain' (fun a b => b.2 = a.1) (w :: ws) →
      (∀ x ∈ w :: ws, x.1.toKey < x.2.toKey) →
      ∀ x ∈ ws, x.2.toKey ≤ w.1.toKey := by
  intro ws
  induction ws with
  | nil => intro w _ _ x hx; cases hx
  | cons w2 rest ih =>
    intro w hchain hwins x hx
    have hlink : w2.2 = w.1 := (List.chain'_cons.mp hchain).1
    rcases List.mem_cons.mp hx with hx | hx
    · subst hx; rw [hlink]
    · have htail : List.Chain' (fun a b => b.2 = a.1) (w2 :: rest) :=
        (List.chain'_cons.mp hchain).2
      have hwins2 : ∀ y ∈ w2 :: rest, y.1.toKey < y.2.toKey := fun y hy =>
        hwins y (List.mem_cons_of_mem _ hy)
      have hx2 := ih w2 htail hwins2 x hx
      have hw2 : w2.1.toKey < w2.2.toKey := hwins2 w2 (List.mem_cons_self _ _)
      have hkeq : w2.2.toKey = w.1.toKey := by rw [hlink]
      omega

theorem chain_windows_pairwise :
    ∀ (ws : List (Date × Date)),
      List.Chain' (fun a b => b.2 = a.1) ws →
      (∀ w ∈ ws, w.1.toKey < w.2.toKey) →
      List.Pairwise (fun a b => b.2.toKey ≤ a.1.toKey) ws := by
  intro ws
  induction ws with
  | nil => intro _ _; exact List.Pairwise.nil
  | cons w rest ih =>
    intro hchain hwins
    refine List.Pairwise.cons (chain_tail_bound rest w hchain hwins) ?_
    exact ih (List.Chain'.tail hchain) (fun x hx => hwins x (List.mem_cons_of_mem _ hx))

end Scrape

namespace Scrape

/-- C2: For every pair of valid dates (start, end) with start < end,
`generate_monthly_windows` returns windows ordered newest-to-oldest,
pairwise non-overlapping and contiguous (each window's lower bound equals
the next window's upper bound), each spanning at most one calendar month
(subtracting one month from its upper bound does not pass its lower bound),
with the newest window's upper bound equal to `end` and the oldest window's
lower bound equal to `start` exactly; if start >= end the list is empty. -/
theorem generate_monthly_windows_spec (start e : Date)
    (hs : start.Valid) (he : e.Valid) :
    (e.toKey ≤ start.toKey → generate_monthly_windows start e = []) ∧
    (start.toKey < e.toKey →
      generate_monthly_windows start e ≠ [] ∧
      (generate_monthly_windows start e).head?.map Prod.snd = some e ∧
      (generate_monthly_windows start e).getLast?.map Prod.fst = some start) ∧
    List.Chain' (fun a b => b.2 = a.1) (generate_monthly_windows start e) ∧
    List.Pairwise (fun a b => b.2.toKey ≤ a.1.toKey) (generate_monthly_windows start e) ∧
    (∀ w ∈ generate_monthly_windows start e,
      w.1.toKey < w.2.toKey ∧ (subMonth w.2).toKey ≤ w.1.toKey) := by
  obtain ⟨hends, hne, hchain, hwins, hlast⟩ :=
    genGo_spec start hs e.toKey e (valid_shape he) he.1 (by omega)
  refine ⟨fun h => hends (by omega), fun h => ?_, hchain, ?_, fun w hw => hwins w hw⟩
  · exact ⟨(hne h).1, (hne h).2, hlast (hne h).1⟩
  · exact chain_windows_pairwise _ hchain (fun w hw => (hwins w hw).1)

/-- Witness for C2 at the concrete range 2024-02-24 .. 2024-06-15. -/
theorem generate_monthly_windows_spec_witness :
    (Date.mk 2024 2 24).Valid ∧ (Date.mk 2024 6 15).Valid ∧
    (((Date.mk 2024 6 15).toKey ≤ (Date.mk 2024 2 24).toKey →
        generate_monthly_windows (Date.mk 2024 2 24) (Date.mk 2024 6 15) = []) ∧
      ((Date.mk 2024 2 24).toKey < (Date.mk 2024 6 15).toKey →
        generate_monthly_windows (Date.mk 2024 2 24) (Date.mk 2024 6 15) ≠ [] ∧
        (generate_monthly_windows (Date.mk 2024 2 24) (Date.mk 2024 6 15)).head?.map Prod.snd
          = some (Date.mk 2024 6 15) ∧
        (generate_monthly_windows (Date.mk 2024 2 24) (Date.mk 2024 6 15)).getLast?.map Prod.fst
          = some (Date.mk 2024 2 24)) ∧
      List.Chain' (fun a b => b.2 = a.1)
        (generate_monthly_windows (Date.mk 2024 2 24) (Date.mk 2024 6 15)) ∧
      List.Pairwise (fun a b => b.2.toKey ≤ a.1.toKey)
        (generate_monthly_windows (Date.mk 2024 2 24) (Date.mk 2024 6 15)) ∧
      (∀ w ∈ generate_monthly_windows (Date.mk 2024 2 24) (Date.mk 2024 6 15),
        w.1.toKey < w.2.toKey ∧ (subMonth w.2).toKey ≤ w.1.toKey)) :=
  ⟨by decide, by decide,
    generate_monthly_windows_spec (Date.mk 2024 2 24) (Date.mk 2024 6 15)
      (by decide) (by decide)⟩

end Scrape

namespace Scrape

/-- Constant `MAX_RETRIES = 5` from `scrape.py`. -/
def MAX_RETRIES : Nat := 5

/-- Constant `max_pages = 200`, the per-window safety limit. -/
def maxPages : Nat := 200

/-- Raw record payload as decoded from one API response: every field is
optional, matching `tw.get(...)` which yields `None` for missing keys. -/
structure RawTweet where
  id : Option String
  createdAt : Option String
  text : Option String
  retweetCount : Option Int
  replyCount : Option Int
  likeCount : Option Int
  quoteCount : Option Int
  viewCount : Option Int
  bookmarkCount : Option Int
deriving DecidableEq, Repr

/-- A CSV row as written by `writer.writerow` in `fetch_window`: the id is
the truthy tweet id, every other field is copied from the payload as-is. -/
structure Row where
  id : String
  createdAt : Option String
  text : Option String
  retweetCount : Option Int
  replyCount : Option Int
  likeCount : Option Int
  quoteCount : Option Int
  viewCount : Option Int
  bookmarkCount : Option Int
deriving DecidableEq, Repr

/-- Decoded body of a successful response: `tweets`, `has_next_page`,
`next_cursor` (absent key modeled as `none`). -/
structure PageBody where
  tweets : List RawTweet
  has_next_page : Bool
  next_cursor : Option String
deriving DecidableEq, Repr

/-- Outcome of one `requests.get` call: transport timeout, other transport
error, or an HTTP response with a status code and decoded body. -/
inductive FetchResult where
  | timeout
  | netError
  | resp (status : Nat) (body : PageBody)
deriving DecidableEq, Repr

/-- The remote API as seen by the loop: a function of the running call
index and the query parameters (since date, until date, cursor). -/
abbrev Fetcher := Nat → Date → Date → String → FetchResult

/-- Python truthiness of an optional string (`if not x` is the negation). -/
def truthy : Option String → Bool
  | none => false
  | some s => !(s == "")

/-- The row dict built for `writer.writerow`: every payload field is copied
verbatim; no counter normalization happens here. -/
def rowOf (tid : String) (tw : RawTweet) : Row :=
  ⟨tid, tw.createdAt, tw.text, tw.retweetCount, tw.replyCount, tw.likeCount,
    tw.quoteCount, tw.viewCount, tw.bookmarkCount⟩

/-- Result of the per-page tweet loop: rows written on this page, the
updated seen-id set, and the updated window total. -/
structure ProcResult where
  rows : List Row
  seen : List String
  total : Nat
deriving DecidableEq, Repr

/-- The `for tw in tweets` loop of `fetch_window`: skip payloads whose id
is falsy or already seen, otherwise record the id and write the row. -/
def processTweets : List RawTweet → List String → Nat → ProcResult
  | [], seen, total => ⟨[], seen, total⟩
  | tw :: rest, seen, total =>
    match tw.id with
    | none => processTweets rest seen total
    | some tid =>
      if tid = "" ∨ tid ∈ seen then processTweets rest seen total
      else
        let r := processTweets rest (tid :: seen) (total + 1)
        ⟨rowOf tid tw :: r.rows, r.seen, r.total⟩

/-- Result of draining (a suffix of) one window: rows written from this
point on, final seen-id set, final `window_total`, number of fetcher calls
made, and the next call index. -/
structure WalkResult where
  rows : List Row
  seen : List String
  total : Nat
  calls : Nat
  nextCallIdx : Nat
deriving DecidableEq, Repr

/-- The `while page <= max_pages` loop of `fetch_window`, with explicit
fuel (last argument) standing in for the loop construct; `walkFuel` below
strictly dominates the iteration count, so the fuel never runs out.  Branch
order matches the source: transport errors and HTTP 429 bump the retry
counter and retry the same page (giving up after `MAX_RETRIES`), any other
non-200 status aborts the window, a 200 with no tweets ends the window,
otherwise the tweets are processed, and pagination continues only when
`has_next_page` and a truthy `next_cursor` are present. -/
def fetchWindowGo (f : Fetcher) (since_date until_date : Date) :
    String → Nat → Nat → Nat → List String → Nat → Nat → WalkResult
  | _, _, total, _, seen, callIdx, 0 => ⟨[], seen, total, 0, callIdx⟩
  | cursor, page, total, retries, seen, callIdx, fuel + 1 =>
    if page ≤ maxPages then
      match f callIdx since_date until_date cursor with
      | .timeout =>
        if MAX_RETRIES ≤ retries + 1 then ⟨[], seen, total, 1, callIdx + 1⟩
        else
          let r := fetchWindowGo f since_date until_date cursor page total
            (retries + 1) seen (callIdx + 1) fuel
          ⟨r.rows, r.seen, r.total, r.calls + 1, r.nextCallIdx⟩
      | .netError =>
        if MAX_RETRIES ≤ retries + 1 then ⟨[], seen, total, 1, callIdx + 1⟩
        else
          let r := fetchWindowGo f since_date until_date cursor page total
            (retries + 1) seen (callIdx + 1) fuel
          ⟨r.rows, r.seen, r.total, r.calls + 1, r.nextCallIdx⟩
      | .resp status body =>
        if status = 429 then
          if MAX_RETRIES ≤ retries + 1 then ⟨[], seen, total, 1, callIdx + 1⟩
          else
            let r := fetchWindowGo f since_date until_date cursor page total
              (retries + 1) seen (callIdx + 1) fuel
            ⟨r.rows, r.seen, r.total, r.calls + 1, r.nextCallIdx⟩
        else if status ≠ 200 then ⟨[], seen, total, 1, callIdx + 1⟩
        else if body.tweets.isEmpty then ⟨[], seen, total, 1, callIdx + 1⟩
        else
          let p := processTweets body.tweets seen total
          if !body.has_next_page || !(truthy body.next_cursor) then
            ⟨p.rows, p.seen, p.total, 1, callIdx + 1⟩
          else
            let r := fetchWindowGo f since_date until_date
              (body.next_cursor.getD "") (page + 1) p.total 0 p.seen
              (callIdx + 1) fuel
            ⟨p.rows ++ r.rows, r.seen, r.total, r.calls + 1, r.nextCallIdx⟩
    else ⟨[], seen, total, 0, callIdx⟩

/-- Fuel dominating every run of the walk loop: each iteration strictly
decreases `(201 - page) * 6 + (5 - retries)`, which starts at 1205. -/
def walkFuel : Nat := 1205

/-- Model of `fetch_window(writer, headers, user_name, since_date,
until_date, seen_ids)`: drain one window by cursor pagination starting
from the empty cursor at page 1. -/
def fetch_window (f : Fetcher) (since_date until_date : Date)
    (seen : List String) (callIdx : Nat) : WalkResult :=
  fetchWindowGo f since_date until_date "" 1 0 0 seen callIdx walkFuel

/-- One row of the persisted CSV as read back by `csv.DictReader`: only the
`id` and `createdAt` fields are consulted by `load_existing_ids`. -/
structure StoreRow where
  id : Option String
  createdAt : Option String
deriving DecidableEq, Repr

/-- Digit-string to number, as `int` conversion inside `strptime`. -/
def natOfDigits (cs : List Char) : Option Nat :=
  if cs = [] then none
  else if cs.all Char.isDigit then
    some (cs.foldl (fun a c => a * 10 + (c.toNat - 48)) 0)
  else none

/-- Split a character list on a separator, as `str.split` with keepempty. -/
def splitOnChar (sep : Char) : List Char → List (List Char)
  | [] => [[]]
  | c :: rest =>
    let r := splitOnChar sep rest
    if c = sep then [] :: r
    else
      match r with
      | [] => [[c]]
      | g :: gs => (c :: g) :: gs

/-- Month abbreviations recognised by `strptime` directive for months. -/
def monthOfAbbrev (cs : List Char) : Option Nat :=
  if cs = "Jan".data then some 1
  else if cs = "Feb".data then some 2
  else if cs = "Mar".data then some 3
  else if cs = "Apr".data then some 4
  else if cs = "May".data then some 5
  else if cs = "Jun".data then some 6
  else if cs = "Jul".data then some 7
  else if cs = "Aug".data then some 8
  else if cs = "Sep".data then some 9
  else if cs = "Oct".data then some 10
  else if cs = "Nov".data then some 11
  else if cs = "Dec".data then some 12
  else none

/-- Weekday abbreviations recognised by the weekday directive. -/
def weekdayOk (cs : List Char) : Bool :=
  decide (cs = "Mon".data) || decide (cs = "Tue".data) || decide (cs = "Wed".data) ||
  decide (cs = "Thu".data) || decide (cs = "Fri".data) || decide (cs = "Sat".data) ||
  decide (cs = "Sun".data)

/-- Validation of the `HH:MM:SS` token. -/
def timeOk (cs : List Char) : Bool :=
  match splitOnChar ':' cs with
  | [h, m, s] =>
    match natOfDigits h, natOfDigits m, natOfDigits s with
    | some hv, some mv, some sv =>
      decide (h.length ≤ 2) && decide (m.length ≤ 2) && decide (s.length ≤ 2) &&
      decide (hv ≤ 23) && decide (mv ≤ 59) && decide (sv ≤ 61)
    | _, _, _ => false
  | _ => false

/-- Validation of the timezone token (sign plus four digits, as +0000). -/
def tzOk (cs : List Char) : Bool :=
  match cs with
  | sign :: rest =>
    (decide (sign = '+') || decide (sign = '-')) &&
    decide (rest.length = 4) && rest.all Char.isDigit
  | [] => false

/-- Model of `parse_twitter_datetime`: parse the format used by the API,
weekday-abbrev month-abbrev day HH:MM:SS +0000 year, returning the date
part, or nothing when `strptime`/`date` raise (caught by the caller). -/
def parse_twitter_datetime (s : String) : Option Date :=
  match splitOnChar ' ' s.data with
  | [wd, mon, dayTok, timeTok, tzTok, yearTok] =>
    if weekdayOk wd && timeOk timeTok && tzOk tzTok then
      match monthOfAbbrev mon, natOfDigits dayTok, natOfDigits yearTok with
      | some m, some d, some y =>
        if 1 ≤ d ∧ d ≤ daysInMonth y m ∧ dayTok.length ≤ 2 ∧ 1 ≤ y then
          some ⟨y, m, d⟩
        else none
      | _, _, _ => none
    else none
  | _ => none

/-- Result of `load_existing_ids`: the seen tweet ids and covered months
reconstructed from the persisted CSV. -/
structure LoadResult where
  seen : List String
  covered : List (Nat × Nat)
deriving DecidableEq, Repr

/-- The row loop of `load_existing_ids`: truthy ids enter the seen set; a
truthy `createdAt` that parses contributes its calendar month key to the
covered set, and a parse failure is silently ignored. -/
def loadGo : List StoreRow → List String → List (Nat × Nat) → LoadResult
  | [], seen, cov => ⟨seen, cov⟩
  | row :: rest, seen, cov =>
    let seen2 :=
      match row.id with
      | some tid => if tid = "" ∨ tid ∈ seen then seen else tid :: seen
      | none => seen
    let cov2 :=
      match row.createdAt with
      | some c =>
        if c = "" then cov
        else
          match parse_twitter_datetime c with
          | some d => if d.monthKey ∈ cov then cov else d.monthKey :: cov
          | none => cov
      | none => cov
    loadGo rest seen2 cov2

/-- Model of `load_existing_ids(csv_path)`: nothing is loaded when the file
does not exist. -/
def load_existing_ids (fileExists : Bool) (rows : List StoreRow) : LoadResult :=
  if fileExists then loadGo rows [] [] else ⟨[], []⟩

/-- File open mode chosen by `fetch_all_tweets` for the output CSV. -/
inductive FileMode where
  | append
  | write
deriving DecidableEq, Repr

/-- Result of the window loop of `fetch_all_tweets`: rows appended from
this point on, final seen set, final running total, windows actually
queried (not skipped), and the next call index. -/
structure RunResult where
  newRows : List Row
  seen : List String
  total : Nat
  queried : List (Date × Date)
  nextCallIdx : Nat
deriving DecidableEq, Repr

/-- The `for i, (since, until) in enumerate(windows)` loop: a window whose
since-month is covered is skipped, every other window is drained by
`fetch_window` with the running seen set. -/
def runGo (f : Fetcher) (covered : List (Nat × Nat)) :
    List (Date × Date) → List String → Nat → Nat → RunResult
  | [], seen, total, callIdx => ⟨[], seen, total, [], callIdx⟩
  | (since_date, until_date) :: rest, seen, total, callIdx =>
    if since_date.monthKey ∈ covered then
      runGo f covered rest seen total callIdx
    else
      let w := fetch_window f since_date until_date seen callIdx
      let r := runGo f covered rest w.seen (total + w.total) w.nextCallIdx
      ⟨w.rows ++ r.newRows, r.seen, r.total, (since_date, until_date) :: r.queried, r.nextCallIdx⟩

/-- Observable outcome of one invocation of `fetch_all_tweets`. -/
structure RunOutcome where
  windows : List (Date × Date)
  covered : List (Nat × Nat)
  seenLoaded : List String
  mode : FileMode
  newRows : List Row
  seen : List String
  total : Nat
  queried : List (Date × Date)
deriving DecidableEq, Repr

/-- Model of `fetch_all_tweets(user_name)` over an explicit date range and
store state: plan the windows, reconstruct seen ids and covered months from
the store, pick append mode exactly when the file exists and at least one
id was loaded, then run the window loop. -/
def fetch_all_tweets (f : Fetcher) (start_date end_date : Date)
    (fileExists : Bool) (store : List StoreRow) : RunOutcome :=
  let windows := generate_monthly_windows start_date end_date
  let L := load_existing_ids fileExists store
  let fe := fileExists && !L.seen.isEmpty
  let mode := if fe then FileMode.append else FileMode.write
  let r := runGo f L.covered windows L.seen L.seen.length 0
  ⟨windows, L.covered, L.seen, mode, r.newRows, r.seen, r.total, r.queried⟩

/-- A freshly written row, as `csv.DictReader` reads it back later. -/
def toStoreRow (r : Row) : StoreRow := ⟨some r.id, r.createdAt⟩

/-- Contents of the output CSV after a run (header row excluded): in
append mode the prior rows are preserved, in write mode the file was
truncated and only the newly appended rows remain. -/
def finalStore (o : RunOutcome) (store : List StoreRow) : List StoreRow :=
  (if o.mode = FileMode.append then store else []) ++ o.newRows.map toStoreRow

end Scrape

namespace Scrape

/-- Fetcher stub returning HTTP 429 on every call. -/
def always429 (b : PageBody) : Fetcher := fun _ _ _ _ => FetchResult.resp 429 b

/-- Fetcher stub returning an empty successful page on every call. -/
def alwaysEmptyPage : Fetcher := fun _ _ _ _ => FetchResult.resp 200 ⟨[], false, none⟩

/-- The per-page loop only ever adds to the seen-id set. -/
theorem processTweets_seen_mono :
    ∀ (tweets : List RawTweet) (seen : List String) (total : Nat) (x : String),
      x ∈ seen → x ∈ (processTweets tweets seen total).seen := by
  intro tweets
  induction tweets with
  | nil => intro seen total x hx; exact hx
  | cons tw rest ih =>
    intro seen total x hx
    rcases htw : tw.id with _ | tid
    · simp only [processTweets, htw]
      exact ih seen total x hx
    · simp only [processTweets, htw]
      by_cases hsk : tid = "" ∨ tid ∈ seen
      · rw [if_pos hsk]; exact ih seen total x hx
      · rw [if_neg hsk]
        exact ih (tid :: seen) (total + 1) x (List.mem_cons_of_mem _ hx)

/-- C1: `load_existing_ids` marks a calendar month covered from the mere
presence of one persisted record in that month, with no record of whether
the month's window was fully drained.  Concretely: a store holding exactly
one June 2024 record (as left behind by a run killed mid-window) makes the
subsequent run over 2024-06-01 .. 2024-08-01 skip the entire June window —
the June month is treated as covered although it was never fully drained,
so the uncovered remainder of June is never re-queried. -/
theorem c1_partial_month_treated_as_covered :
    (fetch_all_tweets alwaysEmptyPage ⟨2024, 6, 1⟩ ⟨2024, 8, 1⟩ true
        [⟨some "x1", some "Sat Jun 15 12:00:00 +0000 2024"⟩]).windows
      = [(⟨2024, 7, 1⟩, ⟨2024, 8, 1⟩), (⟨2024, 6, 1⟩, ⟨2024, 7, 1⟩)] ∧
    (fetch_all_tweets alwaysEmptyPage ⟨2024, 6, 1⟩ ⟨2024, 8, 1⟩ true
        [⟨some "x1", some "Sat Jun 15 12:00:00 +0000 2024"⟩]).covered = [(2024, 6)] ∧
    (fetch_all_tweets alwaysEmptyPage ⟨2024, 6, 1⟩ ⟨2024, 8, 1⟩ true
        [⟨some "x1", some "Sat Jun 15 12:00:00 +0000 2024"⟩]).queried
      = [(⟨2024, 7, 1⟩, ⟨2024, 8, 1⟩)] := by
  refine ⟨by decide, by decide, by decide⟩

/-- C3 counterexample: a payload whose `likeCount` is missing is persisted
with `likeCount` null (None), not 0 — `fetch_window` copies `tw.get(...)`
verbatim into the row. -/
theorem c3_null_counter_persisted_null :
    ((fetch_window
        (fun _ _ _ _ => FetchResult.resp 200
          ⟨[⟨some "t1", some "Sat Jun 15 12:00:00 +0000 2024", some "hello",
              some 1, some 2, none, some 3, some 4, some 5⟩], false, none⟩)
        ⟨2024, 6, 1⟩ ⟨2024, 7, 1⟩ [] 0).rows.map Row.likeCount = [none]) ∧
    ((fetch_window
        (fun _ _ _ _ => FetchResult.resp 200
          ⟨[⟨some "t1", some "Sat Jun 15 12:00:00 +0000 2024", some "hello",
              some 1, some 2, none, some 3, some 4, some 5⟩], false, none⟩)
        ⟨2024, 6, 1⟩ ⟨2024, 7, 1⟩ [] 0).rows.map Row.likeCount ≠ [some 0]) := by
  refine ⟨by decide, by decide⟩

/-- C3 (amended): engagement counters are persisted exactly as received —
every emitted row copies all payload fields verbatim (a null or missing
counter stays null) — and a payload with null counters never causes a
fetch failure or batch abort: every payload in the batch with a fresh
truthy id is still emitted and recorded. -/
theorem c3_counters_copied_verbatim :
    ∀ (tweets : List RawTweet) (seen : List String) (total : Nat),
      (∀ r ∈ (processTweets tweets seen total).rows, ∃ tw ∈ tweets,
        tw.id = some r.id ∧ r.createdAt = tw.createdAt ∧ r.text = tw.text ∧
        r.retweetCount = tw.retweetCount ∧ r.replyCount = tw.replyCount ∧
        r.likeCount = tw.likeCount ∧ r.quoteCount = tw.quoteCount ∧
        r.viewCount = tw.viewCount ∧ r.bookmarkCount = tw.bookmarkCount) ∧
      (∀ tw ∈ tweets, ∀ tid, tw.id = some tid → tid ≠ "" →
        tid ∈ (processTweets tweets seen total).seen) := by
  intro tweets
  induction tweets with
  | nil =>
    intro seen total
    exact ⟨fun r hr => absurd hr (by simp [processTweets]), fun tw htw => absurd htw (by simp)⟩
  | cons tw rest ih =>
    intro seen total
    constructor
    · intro r hr
      rcases htw : tw.id with _ | tid
      · simp only [processTweets, htw] at hr
        obtain ⟨tw2, htw2, hp⟩ := ((ih seen total).1 r hr)
        exact ⟨tw2, List.mem_cons_of_mem _ htw2, hp⟩
      · simp only [processTweets, htw] at hr
        by_cases hsk : tid = "" ∨ tid ∈ seen
        · rw [if_pos hsk] at hr
          obtain ⟨tw2, htw2, hp⟩ := ((ih seen total).1 r hr)
          exact ⟨tw2, List.mem_cons_of_mem _ htw2, hp⟩
        · rw [if_neg hsk] at hr
          simp only [List.mem_cons] at hr
          rcases hr with hr | hr
          · subst hr
            exact ⟨tw, List.mem_cons_self _ _, htw, rfl, rfl, rfl, rfl, rfl, rfl, rfl, rfl⟩
          · obtain ⟨tw2, htw2, hp⟩ := ((ih (tid :: seen) (total + 1)).1 r hr)
            exact ⟨tw2, List.mem_cons_of_mem _ htw2, hp⟩
    · intro tw2 htw2 tid htid hne
      rcases List.mem_cons.mp htw2 with h | h
      · subst h
        simp only [processTweets, htid]
        by_cases hsk : tid = "" ∨ tid ∈ seen
        · rw [if_pos hsk]
          rcases hsk with hsk | hsk
          · exact absurd hsk hne
          · -- already seen: stays in the (monotone) seen set
            exact processTweets_seen_mono rest seen total tid hsk
        · rw [if_neg hsk]
          exact processTweets_seen_mono rest (tid :: seen) (total + 1) tid
            (List.mem_cons_self _ _)
      · rcases htw : tw.id with _ | tid1
        · simp only [processTweets, htw]
          exact ((ih seen total).2 tw2 h tid htid hne)
        · simp only [processTweets, htw]
          by_cases hsk : tid1 = "" ∨ tid1 ∈ seen
          · rw [if_pos hsk]
            exact ((ih seen total).2 tw2 h tid htid hne)
          · rw [if_neg hsk]
            exact ((ih (tid1 :: seen) (total + 1)).2 tw2 h tid htid hne)

end Scrape

namespace Scrape

/-- Witness for C3 (amended): a one-payload batch with all counters null,
instantiating the verbatim-copy and no-abort statement. -/
theorem c3_counters_copied_verbatim_witness :
    (∀ r ∈ (processTweets
        [⟨some "t1", none, none, none, none, none, none, none, none⟩] [] 0).rows,
      ∃ tw ∈ [(⟨some "t1", none, none, none, none, none, none, none, none⟩ : RawTweet)],
        tw.id = some r.id ∧ r.createdAt = tw.createdAt ∧ r.text = tw.text ∧
        r.retweetCount = tw.retweetCount ∧ r.replyCount = tw.replyCount ∧
        r.likeCount = tw.likeCount ∧ r.quoteCount = tw.quoteCount ∧
        r.viewCount = tw.viewCount ∧ r.bookmarkCount = tw.bookmarkCount) ∧
    (∀ tw ∈ [(⟨some "t1", none, none, none, none, none, none, none, none⟩ : RawTweet)],
      ∀ tid, tw.id = some tid → tid ≠ "" →
        tid ∈ (processTweets
          [⟨some "t1", none, none, none, none, none, none, none, none⟩] [] 0).seen) :=
  c3_counters_copied_verbatim
    [⟨some "t1", none, none, none, none, none, none, none, none⟩] [] 0

/-- C4: with a Fetcher answering HTTP 429 on every call, the window loop
terminates after exactly `MAX_RETRIES = 5` attempts, persists nothing,
leaves the seen set untouched, and (last conjunct) leaves the store — and
hence the coverage derived from it — unchanged, so the window's month is
not marked covered. -/
theorem c4_rate_limit_retry_bound :
    ∀ (b : PageBody) (since_date until_date : Date) (seen : List String)
      (callIdx : Nat) (store : List StoreRow),
      (fetch_window (always429 b) since_date until_date seen callIdx).calls = MAX_RETRIES ∧
      (fetch_window (always429 b) since_date until_date seen callIdx).rows = [] ∧
      (fetch_window (always429 b) since_date until_date seen callIdx).total = 0 ∧
      (fetch_window (always429 b) since_date until_date seen callIdx).seen = seen ∧
      store ++ ((fetch_window (always429 b) since_date until_date seen callIdx).rows.map toStoreRow)
        = store := by
  intro b since_date until_date seen callIdx store
  have hrows : (fetch_window (always429 b) since_date until_date seen callIdx).rows = [] := rfl
  refine ⟨rfl, hrows, rfl, rfl, ?_⟩
  rw [hrows]
  simp

/-- The skip test of the orchestrator: a window is skipped exactly when the
calendar month of its lower bound (its since date) is in the covered set;
the upper bound plays no part. -/
def windowSkipped (covered : List (Nat × Nat)) (w : Date × Date) : Bool :=
  decide (w.1.monthKey ∈ covered)

/-- C9: the skip decision is keyed solely on the calendar month of the
window's since date — it is invariant under changing the window's upper
bound, it holds exactly when that month is covered, the window loop
branches on it, and concretely a window reaching into uncovered August is
skipped when its since-month July is covered, while a window mostly inside
covered July is queried when its since-month June is uncovered. -/
theorem c9_skip_keyed_on_since_month :
    ∀ (f : Fetcher) (covered : List (Nat × Nat)) (s u u' : Date)
      (rest : List (Date × Date)) (seen : List String) (total callIdx : Nat),
      (windowSkipped covered (s, u) = windowSkipped covered (s, u')) ∧
      (windowSkipped covered (s, u) = true ↔ s.monthKey ∈ covered) ∧
      (runGo f covered ((s, u) :: rest) seen total callIdx =
        if windowSkipped covered (s, u) then runGo f covered rest seen total callIdx
        else
          ⟨(fetch_window f s u seen callIdx).rows ++
              (runGo f covered rest (fetch_window f s u seen callIdx).seen
                (total + (fetch_window f s u seen callIdx).total)
                (fetch_window f s u seen callIdx).nextCallIdx).newRows,
            (runGo f covered rest (fetch_window f s u seen callIdx).seen
              (total + (fetch_window f s u seen callIdx).total)
              (fetch_window f s u seen callIdx).nextCallIdx).seen,
            (runGo f covered rest (fetch_window f s u seen callIdx).seen
              (total + (fetch_window f s u seen callIdx).total)
              (fetch_window f s u seen callIdx).nextCallIdx).total,
            (s, u) :: (runGo f covered rest (fetch_window f s u seen callIdx).seen
              (total + (fetch_window f s u seen callIdx).total)
              (fetch_window f s u seen callIdx).nextCallIdx).queried,
            (runGo f covered rest (fetch_window f s u seen callIdx).seen
              (total + (fetch_window f s u seen callIdx).total)
              (fetch_window f s u seen callIdx).nextCallIdx).nextCallIdx⟩) ∧
      (windowSkipped [(2024, 7)] (⟨2024, 7, 13⟩, ⟨2024, 8, 13⟩) = true) ∧
      (windowSkipped [(2024, 7)] (⟨2024, 6, 13⟩, ⟨2024, 7, 13⟩) = false) := by
  intro f covered s u u' rest seen total callIdx
  refine ⟨rfl, by simp [windowSkipped], ?_, by decide, by decide⟩
  by_cases h : s.monthKey ∈ covered
  · simp [runGo, windowSkipped, h]
  · simp [runGo, windowSkipped, h]

/-- C10: the output CSV is opened in append mode exactly when it exists
and at least one record identity was loaded from it; when it exists but
yields zero identities, the run opens it in write mode, so the final store
consists of the newly written rows only — the prior contents are gone. -/
theorem c10_append_mode_iff :
    ∀ (f : Fetcher) (start_date end_date : Date) (fileExists : Bool) (store : List StoreRow),
      ((fetch_all_tweets f start_date end_date fileExists store).mode = FileMode.append
        ↔ (fileExists = true ∧ (load_existing_ids fileExists store).seen ≠ [])) ∧
      (fileExists = true → (load_existing_ids true store).seen = [] →
        (fetch_all_tweets f start_date end_date true store).mode = FileMode.write ∧
        finalStore (fetch_all_tweets f start_date end_date true store) store
          = (fetch_all_tweets f start_date end_date true store).newRows.map toStoreRow) := by
  intro f start_date end_date fileExists store
  constructor
  · show (if fileExists && !(load_existing_ids fileExists store).seen.isEmpty
        then FileMode.append else FileMode.write) = FileMode.append ↔ _
    cases fileExists
    · simp
    · cases h : (load_existing_ids true store).seen
      · simp [h]
      · simp [h]
  · intro _ hseen
    have hmode : (fetch_all_tweets f start_date end_date true store).mode = FileMode.write := by
      show (if true && !(load_existing_ids true store).seen.isEmpty
          then FileMode.append else FileMode.write) = FileMode.write
      rw [hseen]
      simp
    refine ⟨hmode, ?_⟩
    unfold finalStore
    rw [hmode]
    simp

/-- Witness for C10: a file that exists but holds only an id-less row loads
zero identities, and the run truncates it: the final store is exactly the
newly written rows. -/
theorem c10_append_mode_iff_witness :
    (load_existing_ids true [⟨none, some "Sat Jun 15 12:00:00 +0000 2024"⟩]).seen = [] ∧
    (fetch_all_tweets alwaysEmptyPage ⟨2024, 6, 1⟩ ⟨2024, 8, 1⟩ true
        [⟨none, some "Sat Jun 15 12:00:00 +0000 2024"⟩]).mode = FileMode.write ∧
    finalStore (fetch_all_tweets alwaysEmptyPage ⟨2024, 6, 1⟩ ⟨2024, 8, 1⟩ true
        [⟨none, some "Sat Jun 15 12:00:00 +0000 2024"⟩])
        [⟨none, some "Sat Jun 15 12:00:00 +0000 2024"⟩]
      = (fetch_all_tweets alwaysEmptyPage ⟨2024, 6, 1⟩ ⟨2024, 8, 1⟩ true
        [⟨none, some "Sat Jun 15 12:00:00 +0000 2024"⟩]).newRows.map toStoreRow :=
  ⟨by decide,
    ((c10_append_mode_iff alwaysEmptyPage ⟨2024, 6, 1⟩ ⟨2024, 8, 1⟩ true
        [⟨none, some "Sat Jun 15 12:00:00 +0000 2024"⟩]).2 rfl (by decide)).1,
    ((c10_append_mode_iff alwaysEmptyPage ⟨2024, 6, 1⟩ ⟨2024, 8, 1⟩ true
        [⟨none, some "Sat Jun 15 12:00:00 +0000 2024"⟩]).2 rfl (by decide)).2⟩

end Scrape

namespace Scrape

/-- Dedup invariants of the per-page loop: the seen set only grows, every
emitted row has a truthy id that is recorded in the final seen set and was
not previously seen, emitted ids are pairwise distinct, and the final seen
set only contains prior ids and emitted ids. -/
theorem processTweets_spec :
    ∀ (tweets : List RawTweet) (seen : List String) (total : Nat),
      (∀ r ∈ (processTweets tweets seen total).rows,
        r.id ∈ (processTweets tweets seen total).seen ∧ r.id ∉ seen ∧ r.id ≠ "") ∧
      ((processTweets tweets seen total).rows.map Row.id).Nodup ∧
      (∀ x ∈ (processTweets tweets seen total).seen,
        x ∈ seen ∨ x ∈ (processTweets tweets seen total).rows.map Row.id) := by
  intro tweets
  induction tweets with
  | nil =>
    intro seen total
    refine ⟨fun r hr => absurd hr (by simp [processTweets]), by simp [processTweets], ?_⟩
    intro x hx
    exact Or.inl hx
  | cons tw rest ih =>
    intro seen total
    rcases htw : tw.id with _ | tid
    · simpa only [processTweets, htw] using ih seen total
    · by_cases hsk : tid = "" ∨ tid ∈ seen
      · have hh : processTweets (tw :: rest) seen total = processTweets rest seen total := by
          simp only [processTweets, htw, if_pos hsk]
        rw [hh]
        exact ih seen total
      · have hh : processTweets (tw :: rest) seen total =
            ⟨rowOf tid tw :: (processTweets rest (tid :: seen) (total + 1)).rows,
             (processTweets rest (tid :: seen) (total + 1)).seen,
             (processTweets rest (tid :: seen) (total + 1)).total⟩ := by
          simp only [processTweets, htw, if_neg hsk]
        rw [hh]
        obtain ⟨ihrows, ihnodup, ihfrom⟩ := ih (tid :: seen) (total + 1)
        push_neg at hsk
        refine ⟨?_, ?_, ?_⟩
        · intro r hr
          rcases List.mem_cons.mp hr with hr | hr
          · subst hr
            exact ⟨processTweets_seen_mono rest (tid :: seen) (total + 1) tid
                (List.mem_cons_self _ _), hsk.2, hsk.1⟩
          · obtain ⟨h1, h2, h3⟩ := ihrows r hr
            exact ⟨h1, fun hc => h2 (List.mem_cons_of_mem _ hc), h3⟩
        · refine List.Nodup.cons ?_ ihnodup
          intro hc
          simp only [List.mem_map] at hc
          obtain ⟨r, hr, hrid⟩ := hc
          exact (ihrows r hr).2.1 (hrid ▸ List.mem_cons_self tid seen)
        · intro x hx
          rcases ihfrom x hx with h | h
          · rcases List.mem_cons.mp h with h | h
            · subst h
              exact Or.inr (by simp [rowOf])
            · exact Or.inl h
          · exact Or.inr (List.mem_cons_of_mem _ h)

/-- Dedup invariants of the window walk loop, lifted page by page from
`processTweets_spec`. -/
theorem fetchWindowGo_spec :
    ∀ (fuel : Nat) (f : Fetcher) (sd ud : Date) (cursor : String)
      (page total retries : Nat) (seen : List String) (callIdx : Nat),
      (∀ x ∈ seen, x ∈ (fetchWindowGo f sd ud cursor page total retries seen callIdx fuel).seen) ∧
      (∀ r ∈ (fetchWindowGo f sd ud cursor page total retries seen callIdx fuel).rows,
        r.id ∈ (fetchWindowGo f sd ud cursor page total retries seen callIdx fuel).seen ∧
        r.id ∉ seen ∧ r.id ≠ "") ∧
      ((fetchWindowGo f sd ud cursor page total retries seen callIdx fuel).rows.map Row.id).Nodup ∧
      (∀ x ∈ (fetchWindowGo f sd ud cursor page total retries seen callIdx fuel).seen,
        x ∈ seen ∨ x ∈ (fetchWindowGo f sd ud cursor page total retries seen callIdx fuel).rows.map Row.id) := by
  intro fuel
  induction fuel with
  | zero =>
    intro f sd ud cursor page total retries seen callIdx
    exact ⟨fun x hx => hx, fun r hr => absurd hr (by simp [fetchWindowGo]),
      by simp [fetchWindowGo], fun x hx => Or.inl hx⟩
  | succ n ih =>
    intro f sd ud cursor page total retries seen callIdx
    by_cases hp : page ≤ maxPages
    · rcases hresp : f callIdx sd ud cursor with _ | _ | ⟨status, body⟩
      · -- transport timeout
        by_cases hr : MAX_RETRIES ≤ retries + 1
        · have hh : fetchWindowGo f sd ud cursor page total retries seen callIdx (n + 1) =
              ⟨[], seen, total, 1, callIdx + 1⟩ := by
            simp only [fetchWindowGo, hresp, if_pos hp, if_pos hr]
          rw [hh]
          exact ⟨fun x hx => hx, fun r hr2 => absurd hr2 (by simp),
            by simp, fun x hx => Or.inl hx⟩
        · have hh : fetchWindowGo f sd ud cursor page total retries seen callIdx (n + 1) =
              ⟨(fetchWindowGo f sd ud cursor page total (retries + 1) seen (callIdx + 1) n).rows,
               (fetchWindowGo f sd ud cursor page total (retries + 1) seen (callIdx + 1) n).seen,
               (fetchWindowGo f sd ud cursor page total (retries + 1) seen (callIdx + 1) n).total,
               (fetchWindowGo f sd ud cursor page total (retries + 1) seen (callIdx + 1) n).calls + 1,
               (fetchWindowGo f sd ud cursor page total (retries + 1) seen (callIdx + 1) n).nextCallIdx⟩ := by
            simp only [fetchWindowGo, hresp, if_pos hp, if_neg hr]
          rw [hh]
          exact ih f sd ud cursor page total (retries + 1) seen (callIdx + 1)
      · -- transport error
        by_cases hr : MAX_RETRIES ≤ retries + 1
        · have hh : fetchWindowGo f sd ud cursor page total retries seen callIdx (n + 1) =
              ⟨[], seen, total, 1, callIdx + 1⟩ := by
            simp only [fetchWindowGo, hresp, if_pos hp, if_pos hr]
          rw [hh]
          exact ⟨fun x hx => hx, fun r hr2 => absurd hr2 (by simp),
            by simp, fun x hx => Or.inl hx⟩
        · have hh : fetchWindowGo f sd ud cursor page total retries seen callIdx (n + 1) =
              ⟨(fetchWindowGo f sd ud cursor page total (retries + 1) seen (callIdx + 1) n).rows,
               (fetchWindowGo f sd ud cursor page total (retries + 1) seen (callIdx + 1) n).seen,
               (fetchWindowGo f sd ud cursor page total (retries + 1) seen (callIdx + 1) n).total,
               (fetchWindowGo f sd ud cursor page total (retries + 1) seen (callIdx + 1) n).calls + 1,
               (fetchWindowGo f sd ud cursor page total (retries + 1) seen (callIdx + 1) n).nextCallIdx⟩ := by
            simp only [fetchWindowGo, hresp, if_pos hp, if_neg hr]
          rw [hh]
          exact ih f sd ud cursor page total (retries + 1) seen (callIdx + 1)
      · -- HTTP response
        by_cases h429 : status = 429
        · by_cases hr : MAX_RETRIES ≤ retries + 1
          · have hh : fetchWindowGo f sd ud cursor page total retries seen callIdx (n + 1) =
                ⟨[], seen, total, 1, callIdx + 1⟩ := by
              simp only [fetchWindowGo, hresp, if_pos hp, if_pos h429, if_pos hr]
            rw [hh]
            exact ⟨fun x hx => hx, fun r hr2 => absurd hr2 (by simp),
              by simp, fun x hx => Or.inl hx⟩
          · have hh : fetchWindowGo f sd ud cursor page total retries seen callIdx (n + 1) =
                ⟨(fetchWindowGo f sd ud cursor page total (retries + 1) seen (callIdx + 1) n).rows,
                 (fetchWindowGo f sd ud cursor page total (retries + 1) seen (callIdx + 1) n).seen,
                 (fetchWindowGo f sd ud cursor page total (retries + 1) seen (callIdx + 1) n).total,
                 (fetchWindowGo f sd ud cursor page total (retries + 1) seen (callIdx + 1) n).calls + 1,
                 (fetchWindowGo f sd ud cursor page total (retries + 1) seen (callIdx + 1) n).nextCallIdx⟩ := by
              simp only [fetchWindowGo, hresp, if_pos hp, if_pos h429, if_neg hr]
            rw [hh]
            exact ih f sd ud cursor page total (retries + 1) seen (callIdx + 1)
        · by_cases h200 : status ≠ 200
          · have hh : fetchWindowGo f sd ud cursor page total retries seen callIdx (n + 1) =
                ⟨[], seen, total, 1, callIdx + 1⟩ := by
              simp only [fetchWindowGo, hresp, if_pos hp, if_neg h429, if_pos h200]
            rw [hh]
            exact ⟨fun x hx => hx, fun r hr2 => absurd hr2 (by simp),
              by simp, fun x hx => Or.inl hx⟩
          · by_cases hemp : body.tweets.isEmpty = true
            · have hh : fetchWindowGo f sd ud cursor page total retries seen callIdx (n + 1) =
                  ⟨[], seen, total, 1, callIdx + 1⟩ := by
                simp only [fetchWindowGo, hresp, if_pos hp, if_neg h429, if_neg h200, if_pos hemp]
              rw [hh]
              exact ⟨fun x hx => hx, fun r hr2 => absurd hr2 (by simp),
                by simp, fun x hx => Or.inl hx⟩
            · by_cases hnext : (!body.has_next_page || !(truthy body.next_cursor)) = true
              · have hh : fetchWindowGo f sd ud cursor page total retries seen callIdx (n + 1) =
                    ⟨(processTweets body.tweets seen total).rows,
                     (processTweets body.tweets seen total).seen,
                     (processTweets body.tweets seen total).total, 1, callIdx + 1⟩ := by
                  simp only [fetchWindowGo, hresp, if_pos hp, if_neg h429, if_neg h200,
                    if_neg hemp, if_pos hnext]
                rw [hh]
                obtain ⟨ptrows, ptnodup, ptfrom⟩ := processTweets_spec body.tweets seen total
                exact ⟨fun x hx => processTweets_seen_mono _ _ _ x hx, ptrows, ptnodup, ptfrom⟩
              · have hh : fetchWindowGo f sd ud cursor page total retries seen callIdx (n + 1) =
                    ⟨(processTweets body.tweets seen total).rows ++
                      (fetchWindowGo f sd ud (body.next_cursor.getD "") (page + 1)
                        (processTweets body.tweets seen total).total 0
                        (processTweets body.tweets seen total).seen (callIdx + 1) n).rows,
                     (fetchWindowGo f sd ud (body.next_cursor.getD "") (page + 1)
                        (processTweets body.tweets seen total).total 0
                        (processTweets body.tweets seen total).seen (callIdx + 1) n).seen,
                     (fetchWindowGo f sd ud (body.next_cursor.getD "") (page + 1)
                        (processTweets body.tweets seen total).total 0
                        (processTweets body.tweets seen total).seen (callIdx + 1) n).total,
                     (fetchWindowGo f sd ud (body.next_cursor.getD "") (page + 1)
                        (processTweets body.tweets seen total).total 0
                        (processTweets body.tweets seen total).seen (callIdx + 1) n).calls + 1,
                     (fetchWindowGo f sd ud (body.next_cursor.getD "") (page + 1)
                        (processTweets body.tweets seen total).total 0
                        (processTweets body.tweets seen total).seen (callIdx + 1) n).nextCallIdx⟩ := by
                  simp only [fetchWindowGo, hresp, if_pos hp, if_neg h429, if_neg h200,
                    if_neg hemp, if_neg hnext]
                rw [hh]
                obtain ⟨ptrows, ptnodup, ptfrom⟩ := processTweets_spec body.tweets seen total
                obtain ⟨ihmono, ihrows, ihnodup, ihfrom⟩ :=
                  ih f sd ud (body.next_cursor.getD "") (page + 1)
                    (processTweets body.tweets seen total).total 0
                    (processTweets body.tweets seen total).seen (callIdx + 1)
                refine ⟨?_, ?_, ?_, ?_⟩
                · intro x hx
                  exact ihmono x (processTweets_seen_mono _ _ _ x hx)
                · intro r hr
                  rcases List.mem_append.mp hr with hr | hr
                  · obtain ⟨h1, h2, h3⟩ := ptrows r hr
                    exact ⟨ihmono r.id h1, h2, h3⟩
                  · obtain ⟨h1, h2, h3⟩ := ihrows r hr
                    exact ⟨h1, fun hc => h2 (processTweets_seen_mono _ _ _ r.id hc), h3⟩
                · rw [List.map_append]
                  refine List.Nodup.append ptnodup ihnodup ?_
                  intro a ha hb
                  simp only [List.mem_map] at ha hb
                  obtain ⟨r1, hr1, hid1⟩ := ha
                  obtain ⟨r2, hr2, hid2⟩ := hb
                  exact (ihrows r2 hr2).2.1 (hid2 ▸ hid1 ▸ (ptrows r1 hr1).1)
                · intro x hx
                  rw [List.map_append]
                  rcases ihfrom x hx with h | h
                  · rcases ptfrom x h with h2 | h2
                    · exact Or.inl h2
                    · exact Or.inr (List.mem_append.mpr (Or.inl h2))
                  · exact Or.inr (List.mem_append.mpr (Or.inr h))
    · have hh : fetchWindowGo f sd ud cursor page total retries seen callIdx (n + 1) =
          ⟨[], seen, total, 0, callIdx⟩ := by
        simp only [fetchWindowGo, if_neg hp]
      rw [hh]
      exact ⟨fun x hx => hx, fun r hr2 => absurd hr2 (by simp),
        by simp, fun x hx => Or.inl hx⟩

end Scrape

namespace Scrape

/-- Dedup invariants of `fetch_window`, instance of `fetchWindowGo_spec`. -/
theorem fetch_window_spec (f : Fetcher) (sd ud : Date) (seen : List String) (callIdx : Nat) :
    (∀ x ∈ seen, x ∈ (fetch_window f sd ud seen callIdx).seen) ∧
    (∀ r ∈ (fetch_window f sd ud seen callIdx).rows,
      r.id ∈ (fetch_window f sd ud seen callIdx).seen ∧ r.id ∉ seen ∧ r.id ≠ "") ∧
    ((fetch_window f sd ud seen callIdx).rows.map Row.id).Nodup ∧
    (∀ x ∈ (fetch_window f sd ud seen callIdx).seen,
      x ∈ seen ∨ x ∈ (fetch_window f sd ud seen callIdx).rows.map Row.id) :=
  fetchWindowGo_spec walkFuel f sd ud "" 1 0 0 seen callIdx

/-- Dedup invariants of the orchestrator's window loop, lifted window by
window from `fetch_window_spec`. -/
theorem runGo_spec :
    ∀ (ws : List (Date × Date)) (f : Fetcher) (covered : List (Nat × Nat))
      (seen : List String) (total callIdx : Nat),
      (∀ x ∈ seen, x ∈ (runGo f covered ws seen total callIdx).seen) ∧
      (∀ r ∈ (runGo f covered ws seen total callIdx).newRows,
        r.id ∈ (runGo f covered ws seen total callIdx).seen ∧ r.id ∉ seen ∧ r.id ≠ "") ∧
      ((runGo f covered ws seen total callIdx).newRows.map Row.id).Nodup ∧
      (∀ x ∈ (runGo f covered ws seen total callIdx).seen,
        x ∈ seen ∨ x ∈ (runGo f covered ws seen total callIdx).newRows.map Row.id) := by
  intro ws
  induction ws with
  | nil =>
    intro f covered seen total callIdx
    exact ⟨fun x hx => hx, fun r hr => absurd hr (by simp [runGo]),
      by simp [runGo], fun x hx => Or.inl hx⟩
  | cons w rest ih =>
    intro f covered seen total callIdx
    obtain ⟨s, u⟩ := w
    by_cases hc : s.monthKey ∈ covered
    · have hh : runGo f covered ((s, u) :: rest) seen total callIdx =
          runGo f covered rest seen total callIdx := by
        simp only [runGo, if_pos hc]
      rw [hh]
      exact ih f covered seen total callIdx
    · have hh : runGo f covered ((s, u) :: rest) seen total callIdx =
          ⟨(fetch_window f s u seen callIdx).rows ++
            (runGo f covered rest (fetch_window f s u seen callIdx).seen
              (total + (fetch_window f s u seen callIdx).total)
              (fetch_window f s u seen callIdx).nextCallIdx).newRows,
           (runGo f covered rest (fetch_window f s u seen callIdx).seen
              (total + (fetch_window f s u seen callIdx).total)
              (fetch_window f s u seen callIdx).nextCallIdx).seen,
           (runGo f covered rest (fetch_window f s u seen callIdx).seen
              (total + (fetch_window f s u seen callIdx).total)
              (fetch_window f s u seen callIdx).nextCallIdx).total,
           (s, u) :: (runGo f covered rest (fetch_window f s u seen callIdx).seen
              (total + (fetch_window f s u seen callIdx).total)
              (fetch_window f s u seen callIdx).nextCallIdx).queried,
           (runGo f covered rest (fetch_window f s u seen callIdx).seen
              (total + (fetch_window f s u seen callIdx).total)
              (fetch_window f s u seen callIdx).nextCallIdx).nextCallIdx⟩ := by
        simp only [runGo, if_neg hc]
      rw [hh]
      obtain ⟨wmono, wrows, wnodup, wfrom⟩ := fetch_window_spec f s u seen callIdx
      obtain ⟨ihmono, ihrows, ihnodup, ihfrom⟩ :=
        ih f covered (fetch_window f s u seen callIdx).seen
          (total + (fetch_window f s u seen callIdx).total)
          (fetch_window f s u seen callIdx).nextCallIdx
      refine ⟨?_, ?_, ?_, ?_⟩
      · intro x hx
        exact ihmono x (wmono x hx)
      · intro r hr
        rcases List.mem_append.mp hr with hr | hr
        · obtain ⟨h1, h2, h3⟩ := wrows r hr
          exact ⟨ihmono r.id h1, h2, h3⟩
        · obtain ⟨h1, h2, h3⟩ := ihrows r hr
          exact ⟨h1, fun hc2 => h2 (wmono r.id hc2), h3⟩
      · rw [List.map_append]
        refine List.Nodup.append wnodup ihnodup ?_
        intro a ha hb
        simp only [List.mem_map] at ha hb
        obtain ⟨r1, hr1, hid1⟩ := ha
        obtain ⟨r2, hr2, hid2⟩ := hb
        exact (ihrows r2 hr2).2.1 (hid2 ▸ hid1 ▸ (wrows r1 hr1).1)
      · intro x hx
        rw [List.map_append]
        rcases ihfrom x hx with h | h
        · rcases wfrom x h with h2 | h2
          · exact Or.inl h2
          · exact Or.inr (List.mem_append.mpr (Or.inl h2))
        · exact Or.inr (List.mem_append.mpr (Or.inr h))

/-- Fetcher stub returning one record with identity "123" for every query
of every window. -/
def always123 : Fetcher := fun _ _ _ _ =>
  FetchResult.resp 200
    ⟨[⟨some "123", some "Sat Jun 15 12:00:00 +0000 2024", some "x",
        none, none, none, none, none, none⟩], false, none⟩

/-- C5: the store never gains two records with the same identity — the ids
of the rows appended by a run are pairwise distinct and disjoint from the
ids already loaded from the store, and concretely a record with identity
"123" returned by both of two windows is persisted exactly once. -/
theorem c5_dedup_across_windows_and_runs :
    ∀ (f : Fetcher) (start_date end_date : Date) (fileExists : Bool) (store : List StoreRow),
      ((fetch_all_tweets f start_date end_date fileExists store).newRows.map Row.id).Nodup ∧
      (∀ r ∈ (fetch_all_tweets f start_date end_date fileExists store).newRows,
        r.id ∉ (load_existing_ids fileExists store).seen) ∧
      ((fetch_all_tweets always123 ⟨2024, 6, 1⟩ ⟨2024, 8, 1⟩ false []).newRows.map Row.id
        = ["123"]) := by
  intro f start_date end_date fileExists store
  obtain ⟨hmono, hrows, hnodup, hfrom⟩ :=
    runGo_spec (generate_monthly_windows start_date end_date) f
      (load_existing_ids fileExists store).covered
      (load_existing_ids fileExists store).seen
      (load_existing_ids fileExists store).seen.length 0
  exact ⟨hnodup, fun r hr => (hrows r hr).2.1, by decide⟩

/-- Witness for C5 at a concrete fetcher, range, and empty store. -/
theorem c5_dedup_across_windows_and_runs_witness :
    ((fetch_all_tweets always123 ⟨2024, 6, 1⟩ ⟨2024, 8, 1⟩ false []).newRows.map Row.id).Nodup ∧
    (∀ r ∈ (fetch_all_tweets always123 ⟨2024, 6, 1⟩ ⟨2024, 8, 1⟩ false []).newRows,
      r.id ∉ (load_existing_ids false []).seen) ∧
    ((fetch_all_tweets always123 ⟨2024, 6, 1⟩ ⟨2024, 8, 1⟩ false []).newRows.map Row.id
      = ["123"]) :=
  c5_dedup_across_windows_and_runs always123 ⟨2024, 6, 1⟩ ⟨2024, 8, 1⟩ false []

/-- Fetcher scenario for C7: the first window yields one page with records
"a","b" and a next cursor, then a fatal HTTP 500; the second window yields
one page with record "c". -/
def fatalScenario : Fetcher := fun i _ _ _ =>
  if i = 0 then
    FetchResult.resp 200
      ⟨[⟨some "a", none, none, none, none, none, none, none, none⟩,
        ⟨some "b", none, none, none, none, none, none, none, none⟩], true, some "c1"⟩
  else if i = 1 then FetchResult.resp 500 ⟨[], false, none⟩
  else FetchResult.resp 200
    ⟨[⟨some "c", none, none, none, none, none, none, none, none⟩], false, none⟩

/-- C7: a non-success status other than 429 aborts the current window
immediately (one call, no further rows, seen and total unchanged); the
orchestrator loop nevertheless proceeds to the remaining windows; and in
the concrete scenario the records collected before the fatal response stay
persisted while the next window is still fetched. -/
theorem c7_fatal_preserves_rows_and_continues :
    ∀ (f : Fetcher) (sd ud : Date) (cursor : String) (page total retries : Nat)
      (seen : List String) (callIdx n status : Nat) (body : PageBody)
      (covered : List (Nat × Nat)) (s u : Date) (rest : List (Date × Date)),
      (page ≤ maxPages → f callIdx sd ud cursor = FetchResult.resp status body →
        status ≠ 429 → status ≠ 200 →
        fetchWindowGo f sd ud cursor page total retries seen callIdx (n + 1)
          = ⟨[], seen, total, 1, callIdx + 1⟩) ∧
      (s.monthKey ∉ covered →
        runGo f covered ((s, u) :: rest) seen total callIdx
          = ⟨(fetch_window f s u seen callIdx).rows ++
              (runGo f covered rest (fetch_window f s u seen callIdx).seen
                (total + (fetch_window f s u seen callIdx).total)
                (fetch_window f s u seen callIdx).nextCallIdx).newRows,
             (runGo f covered rest (fetch_window f s u seen callIdx).seen
                (total + (fetch_window f s u seen callIdx).total)
                (fetch_window f s u seen callIdx).nextCallIdx).seen,
             (runGo f covered rest (fetch_window f s u seen callIdx).seen
                (total + (fetch_window f s u seen callIdx).total)
                (fetch_window f s u seen callIdx).nextCallIdx).total,
             (s, u) :: (runGo f covered rest (fetch_window f s u seen callIdx).seen
                (total + (fetch_window f s u seen callIdx).total)
                (fetch_window f s u seen callIdx).nextCallIdx).queried,
             (runGo f covered rest (fetch_window f s u seen callIdx).seen
                (total + (fetch_window f s u seen callIdx).total)
                (fetch_window f s u seen callIdx).nextCallIdx).nextCallIdx⟩) ∧
      ((fetch_all_tweets fatalScenario ⟨2024, 6, 1⟩ ⟨2024, 8, 1⟩ false []).newRows.map Row.id
        = ["a", "b", "c"]) ∧
      ((fetch_all_tweets fatalScenario ⟨2024, 6, 1⟩ ⟨2024, 8, 1⟩ false []).queried
        = [(⟨2024, 7, 1⟩, ⟨2024, 8, 1⟩), (⟨2024, 6, 1⟩, ⟨2024, 7, 1⟩)]) := by
  intro f sd ud cursor page total retries seen callIdx n status body covered s u rest
  refine ⟨?_, ?_, by decide, by decide⟩
  · intro hp hresp h429 h200
    simp only [fetchWindowGo, hresp, if_pos hp, if_neg h429, if_pos h200]
  · intro hc
    simp only [runGo, if_neg hc]

/-- Witness for C7: the general conjuncts applied at the concrete fatal
scenario, with the fatal response hypotheses discharged by computation. -/
theorem c7_fatal_preserves_rows_and_continues_witness :
    (fetchWindowGo fatalScenario ⟨2024, 7, 1⟩ ⟨2024, 8, 1⟩ "c1" 2 2 0 ["b", "a"] 1 (0 + 1)
      = ⟨[], ["b", "a"], 2, 1, 2⟩) ∧
    ((fetch_all_tweets fatalScenario ⟨2024, 6, 1⟩ ⟨2024, 8, 1⟩ false []).newRows.map Row.id
      = ["a", "b", "c"]) :=
  ⟨(c7_fatal_preserves_rows_and_continues fatalScenario ⟨2024, 7, 1⟩ ⟨2024, 8, 1⟩
      "c1" 2 2 0 ["b", "a"] 1 0 500 ⟨[], false, none⟩ [] ⟨2024, 6, 1⟩ ⟨2024, 7, 1⟩ []).1
    (by decide) (by decide) (by decide) (by decide),
   (c7_fatal_preserves_rows_and_continues fatalScenario ⟨2024, 7, 1⟩ ⟨2024, 8, 1⟩
      "c1" 2 2 0 ["b", "a"] 1 0 500 ⟨[], false, none⟩ [] ⟨2024, 6, 1⟩ ⟨2024, 7, 1⟩ []).2.2.1⟩

end Scrape

namespace Scrape

/-- Unfolding: the loop exits immediately once the page cap is passed. -/
theorem go_dead (f : Fetcher) (sd ud : Date) (cursor : String)
    (page total retries : Nat) (seen : List String) (callIdx fuel : Nat)
    (hp : ¬ page ≤ maxPages) :
    fetchWindowGo f sd ud cursor page total retries seen callIdx fuel
      = ⟨[], seen, total, 0, callIdx⟩ := by
  cases fuel with
  | zero => rfl
  | succ n => simp only [fetchWindowGo, if_neg hp]

/-- Unfolding: a timeout at the retry limit abandons the window. -/
theorem go_timeout_break (f : Fetcher) (sd ud : Date) (cursor : String)
    (page total retries : Nat) (seen : List String) (callIdx n : Nat)
    (hp : page ≤ maxPages) (hresp : f callIdx sd ud cursor = FetchResult.timeout)
    (hr : MAX_RETRIES ≤ retries + 1) :
    fetchWindowGo f sd ud cursor page total retries seen callIdx (n + 1)
      = ⟨[], seen, total, 1, callIdx + 1⟩ := by
  simp only [fetchWindowGo, hresp, if_pos hp, if_pos hr]

/-- Unfolding: a timeout below the retry limit retries the same page. -/
theorem go_timeout_retry (f : Fetcher) (sd ud : Date) (cursor : String)
    (page total retries : Nat) (seen : List String) (callIdx n : Nat)
    (hp : page ≤ maxPages) (hresp : f callIdx sd ud cursor = FetchResult.timeout)
    (hr : ¬ MAX_RETRIES ≤ retries + 1) :
    fetchWindowGo f sd ud cursor page total retries seen callIdx (n + 1)
      = ⟨(fetchWindowGo f sd ud cursor page total (retries + 1) seen (callIdx + 1) n).rows,
         (fetchWindowGo f sd ud cursor page total (retries + 1) seen (callIdx + 1) n).seen,
         (fetchWindowGo f sd ud cursor page total (retries + 1) seen (callIdx + 1) n).total,
         (fetchWindowGo f sd ud cursor page total (retries + 1) seen (callIdx + 1) n).calls + 1,
         (fetchWindowGo f sd ud cursor page total (retries + 1) seen (callIdx + 1) n).nextCallIdx⟩ := by
  simp only [fetchWindowGo, hresp, if_pos hp, if_neg hr]

/-- Unfolding: a connection error at the retry limit abandons the window. -/
theorem go_netError_break (f : Fetcher) (sd ud : Date) (cursor : String)
    (page total retries : Nat) (seen : List String) (callIdx n : Nat)
    (hp : page ≤ maxPages) (hresp : f callIdx sd ud cursor = FetchResult.netError)
    (hr : MAX_RETRIES ≤ retries + 1) :
    fetchWindowGo f sd ud cursor page total retries seen callIdx (n + 1)
      = ⟨[], seen, total, 1, callIdx + 1⟩ := by
  simp only [fetchWindowGo, hresp, if_pos hp, if_pos hr]

/-- Unfolding: a connection error below the retry limit retries the page. -/
theorem go_netError_retry (f : Fetcher) (sd ud : Date) (cursor : String)
    (page total retries : Nat) (seen : List String) (callIdx n : Nat)
    (hp : page ≤ maxPages) (hresp : f callIdx sd ud cursor = FetchResult.netError)
    (hr : ¬ MAX_RETRIES ≤ retries + 1) :
    fetchWindowGo f sd ud cursor page total retries seen callIdx (n + 1)
      = ⟨(fetchWindowGo f sd ud cursor page total (retries + 1) seen (callIdx + 1) n).rows,
         (fetchWindowGo f sd ud cursor page total (retries + 1) seen (callIdx + 1) n).seen,
         (fetchWindowGo f sd ud cursor page total (retries + 1) seen (callIdx + 1) n).total,
         (fetchWindowGo f sd ud cursor page total (retries + 1) seen (callIdx + 1) n).calls + 1,
         (fetchWindowGo f sd ud cursor page total (retries + 1) seen (callIdx + 1) n).nextCallIdx⟩ := by
  simp only [fetchWindowGo, hresp, if_pos hp, if_neg hr]

/-- Unfolding: HTTP 429 at the retry limit abandons the window. -/
theorem go_429_break (f : Fetcher) (sd ud : Date) (cursor : String)
    (page total retries : Nat) (seen : List String) (callIdx n status : Nat)
    (body : PageBody) (hp : page ≤ maxPages)
    (hresp : f callIdx sd ud cursor = FetchResult.resp status body)
    (h429 : status = 429) (hr : MAX_RETRIES ≤ retries + 1) :
    fetchWindowGo f sd ud cursor page total retries seen callIdx (n + 1)
      = ⟨[], seen, total, 1, callIdx + 1⟩ := by
  simp only [fetchWindowGo, hresp, if_pos hp, if_pos h429, if_pos hr]

/-- Unfolding: HTTP 429 below the retry limit retries the same page. -/
theorem go_429_retry (f : Fetcher) (sd ud : Date) (cursor : String)
    (page total retries : Nat) (seen : List String) (callIdx n status : Nat)
    (body : PageBody) (hp : page ≤ maxPages)
    (hresp : f callIdx sd ud cursor = FetchResult.resp status body)
    (h429 : status = 429) (hr : ¬ MAX_RETRIES ≤ retries + 1) :
    fetchWindowGo f sd ud cursor page total retries seen callIdx (n + 1)
      = ⟨(fetchWindowGo f sd ud cursor page total (retries + 1) seen (callIdx + 1) n).rows,
         (fetchWindowGo f sd ud cursor page total (retries + 1) seen (callIdx + 1) n).seen,
         (fetchWindowGo f sd ud cursor page total (retries + 1) seen (callIdx + 1) n).total,
         (fetchWindowGo f sd ud cursor page total (retries + 1) seen (callIdx + 1) n).calls + 1,
         (fetchWindowGo f sd ud cursor page total (retries + 1) seen (callIdx + 1) n).nextCallIdx⟩ := by
  simp only [fetchWindowGo, hresp, if_pos hp, if_pos h429, if_neg hr]

/-- Unfolding: any other non-200 status aborts the window at once. -/
theorem go_fatal (f : Fetcher) (sd ud : Date) (cursor : String)
    (page total retries : Nat) (seen : List String) (callIdx n status : Nat)
    (body : PageBody) (hp : page ≤ maxPages)
    (hresp : f callIdx sd ud cursor = FetchResult.resp status body)
    (h429 : ¬ status = 429) (h200 : status ≠ 200) :
    fetchWindowGo f sd ud cursor page total retries seen callIdx (n + 1)
      = ⟨[], seen, total, 1, callIdx + 1⟩ := by
  simp only [fetchWindowGo, hresp, if_pos hp, if_neg h429, if_pos h200]

/-- Unfolding: a 200 with an empty tweet list ends the window. -/
theorem go_emptyPage (f : Fetcher) (sd ud : Date) (cursor : String)
    (page total retries : Nat) (seen : List String) (callIdx n status : Nat)
    (body : PageBody) (hp : page ≤ maxPages)
    (hresp : f callIdx sd ud cursor = FetchResult.resp status body)
    (h429 : ¬ status = 429) (h200 : ¬ status ≠ 200) (hemp : body.tweets.isEmpty = true) :
    fetchWindowGo f sd ud cursor page total retries seen callIdx (n + 1)
      = ⟨[], seen, total, 1, callIdx + 1⟩ := by
  simp only [fetchWindowGo, hresp, if_pos hp, if_neg h429, if_neg h200, if_pos hemp]

/-- Unfolding: a 200 with tweets but no continuation writes the page and
ends the window. -/
theorem go_lastPage (f : Fetcher) (sd ud : Date) (cursor : String)
    (page total retries : Nat) (seen : List String) (callIdx n status : Nat)
    (body : PageBody) (hp : page ≤ maxPages)
    (hresp : f callIdx sd ud cursor = FetchResult.resp status body)
    (h429 : ¬ status = 429) (h200 : ¬ status ≠ 200) (hemp : ¬ body.tweets.isEmpty = true)
    (hnext : (!body.has_next_page || !(truthy body.next_cursor)) = true) :
    fetchWindowGo f sd ud cursor page total retries seen callIdx (n + 1)
      = ⟨(processTweets body.tweets seen total).rows,
         (processTweets body.tweets seen total).seen,
         (processTweets body.tweets seen total).total, 1, callIdx + 1⟩ := by
  simp only [fetchWindowGo, hresp, if_pos hp, if_neg h429, if_neg h200, if_neg hemp,
    if_pos hnext]

/-- Unfolding: a 200 with tweets and a continuation writes the page and
recurses on the next cursor with the retry counter reset. -/
theorem go_nextPage (f : Fetcher) (sd ud : Date) (cursor : String)
    (page total retries : Nat) (seen : List String) (callIdx n status : Nat)
    (body : PageBody) (hp : page ≤ maxPages)
    (hresp : f callIdx sd ud cursor = FetchResult.resp status body)
    (h429 : ¬ status = 429) (h200 : ¬ status ≠ 200) (hemp : ¬ body.tweets.isEmpty = true)
    (hnext : ¬ (!body.has_next_page || !(truthy body.next_cursor)) = true) :
    fetchWindowGo f sd ud cursor page total retries seen callIdx (n + 1)
      = ⟨(processTweets body.tweets seen total).rows ++
          (fetchWindowGo f sd ud (body.next_cursor.getD "") (page + 1)
            (processTweets body.tweets seen total).total 0
            (processTweets body.tweets seen total).seen (callIdx + 1) n).rows,
         (fetchWindowGo f sd ud (body.next_cursor.getD "") (page + 1)
            (processTweets body.tweets seen total).total 0
            (processTweets body.tweets seen total).seen (callIdx + 1) n).seen,
         (fetchWindowGo f sd ud (body.next_cursor.getD "") (page + 1)
            (processTweets body.tweets seen total).total 0
            (processTweets body.tweets seen total).seen (callIdx + 1) n).total,
         (fetchWindowGo f sd ud (body.next_cursor.getD "") (page + 1)
            (processTweets body.tweets seen total).total 0
            (processTweets body.tweets seen total).seen (callIdx + 1) n).calls + 1,
         (fetchWindowGo f sd ud (body.next_cursor.getD "") (page + 1)
            (processTweets body.tweets seen total).total 0
            (processTweets body.tweets seen total).seen (callIdx + 1) n).nextCallIdx⟩ := by
  simp only [fetchWindowGo, hresp, if_pos hp, if_neg h429, if_neg h200, if_neg hemp,
    if_neg hnext]

/-- Ranking function of the walk loop: strictly decreases on every
recursive call, bounding the number of iterations (hence fetcher calls). -/
def walkMeasure (page retries : Nat) : Nat :=
  (201 - page) * 6 + (5 - retries)

/-- The loop makes at most one fetcher call per unit of fuel. -/
theorem fetchWindowGo_calls_le :
    ∀ (fuel : Nat) (f : Fetcher) (sd ud : Date) (cursor : String)
      (page total retries : Nat) (seen : List String) (callIdx : Nat),
      (fetchWindowGo f sd ud cursor page total retries seen callIdx fuel).calls ≤ fuel := by
  intro fuel
  induction fuel with
  | zero =>
    intro f sd ud cursor page total retries seen callIdx
    exact le_refl 0
  | succ n ih =>
    intro f sd ud cursor page total retries seen callIdx
    by_cases hp : page ≤ maxPages
    · rcases hresp : f callIdx sd ud cursor with _ | _ | ⟨status, body⟩
      · by_cases hr : MAX_RETRIES ≤ retries + 1
        · rw [go_timeout_break f sd ud cursor page total retries seen callIdx n hp hresp hr]
          show (1:Nat) ≤ n + 1
          omega
        · rw [go_timeout_retry f sd ud cursor page total retries seen callIdx n hp hresp hr]
          have := ih f sd ud cursor page total (retries + 1) seen (callIdx + 1)
          show _ + 1 ≤ n + 1
          omega
      · by_cases hr : MAX_RETRIES ≤ retries + 1
        · rw [go_netError_break f sd ud cursor page total retries seen callIdx n hp hresp hr]
          show (1:Nat) ≤ n + 1
          omega
        · rw [go_netError_retry f sd ud cursor page total retries seen callIdx n hp hresp hr]
          have := ih f sd ud cursor page total (retries + 1) seen (callIdx + 1)
          show _ + 1 ≤ n + 1
          omega
      · by_cases h429 : status = 429
        · by_cases hr : MAX_RETRIES ≤ retries + 1
          · rw [go_429_break f sd ud cursor page total retries seen callIdx n status body
              hp hresp h429 hr]
            show (1:Nat) ≤ n + 1
            omega
          · rw [go_429_retry f sd ud cursor page total retries seen callIdx n status body
              hp hresp h429 hr]
            have := ih f sd ud cursor page total (retries + 1) seen (callIdx + 1)
            show _ + 1 ≤ n + 1
            omega
        · by_cases h200 : status ≠ 200
          · rw [go_fatal f sd ud cursor page total retries seen callIdx n status body
              hp hresp h429 h200]
            show (1:Nat) ≤ n + 1
            omega
          · by_cases hemp : body.tweets.isEmpty = true
            · rw [go_emptyPage f sd ud cursor page total retries seen callIdx n status body
                hp hresp h429 h200 hemp]
              show (1:Nat) ≤ n + 1
              omega
            · by_cases hnext : (!body.has_next_page || !(truthy body.next_cursor)) = true
              · rw [go_lastPage f sd ud cursor page total retries seen callIdx n status body
                  hp hresp h429 h200 hemp hnext]
                show (1:Nat) ≤ n + 1
                omega
              · rw [go_nextPage f sd ud cursor page total retries seen callIdx n status body
                  hp hresp h429 h200 hemp hnext]
                have := ih f sd ud (body.next_cursor.getD "") (page + 1)
                  (processTweets body.tweets seen total).total 0
                  (processTweets body.tweets seen total).seen (callIdx + 1)
                show _ + 1 ≤ n + 1
                omega
    · rw [go_dead f sd ud cursor page total retries seen callIdx (n + 1) hp]
      show (0:Nat) ≤ n + 1
      omega

/-- Stabilization: any fuel at least the ranking value yields the same
result — the loop always exits through its own stop conditions, never by
running out of (sufficient) fuel.  This is the termination argument. -/
theorem fetchWindowGo_stable :
    ∀ (fuel1 fuel2 : Nat) (f : Fetcher) (sd ud : Date) (cursor : String)
      (page total retries : Nat) (seen : List String) (callIdx : Nat),
      walkMeasure page retries ≤ fuel1 → walkMeasure page retries ≤ fuel2 →
      fetchWindowGo f sd ud cursor page total retries seen callIdx fuel1 =
      fetchWindowGo f sd ud cursor page total retries seen callIdx fuel2 := by
  intro fuel1
  induction fuel1 with
  | zero =>
    intro fuel2 f sd ud cursor page total retries seen callIdx h1 _
    have hp : ¬ page ≤ maxPages := by
      intro hc
      have hc2 : page ≤ 200 := hc
      unfold walkMeasure at h1
      omega
    rw [go_dead f sd ud cursor page total retries seen callIdx 0 hp,
      go_dead f sd ud cursor page total retries seen callIdx fuel2 hp]
  | succ n ih =>
    intro fuel2 f sd ud cursor page total retries seen callIdx h1 h2
    by_cases hp : page ≤ maxPages
    · have hp2 : page ≤ 200 := hp
      have hm : 6 ≤ walkMeasure page retries := by
        unfold walkMeasure
        omega
      rcases fuel2 with _ | m
      · omega
      · rcases hresp : f callIdx sd ud cursor with _ | _ | ⟨status, body⟩
        · by_cases hr : MAX_RETRIES ≤ retries + 1
          · rw [go_timeout_break f sd ud cursor page total retries seen callIdx n hp hresp hr,
              go_timeout_break f sd ud cursor page total retries seen callIdx m hp hresp hr]
          · have hr2 : ¬ 5 ≤ retries + 1 := hr
            have hdec : walkMeasure page (retries + 1) + 1 ≤ walkMeasure page retries := by
              unfold walkMeasure
              omega
            rw [go_timeout_retry f sd ud cursor page total retries seen callIdx n hp hresp hr,
              go_timeout_retry f sd ud cursor page total retries seen callIdx m hp hresp hr,
              ih m f sd ud cursor page total (retries + 1) seen (callIdx + 1)
                (by omega) (by omega)]
        · by_cases hr : MAX_RETRIES ≤ retries + 1
          · rw [go_netError_break f sd ud cursor page total retries seen callIdx n hp hresp hr,
              go_netError_break f sd ud cursor page total retries seen callIdx m hp hresp hr]
          · have hr2 : ¬ 5 ≤ retries + 1 := hr
            have hdec : walkMeasure page (retries + 1) + 1 ≤ walkMeasure page retries := by
              unfold walkMeasure
              omega
            rw [go_netError_retry f sd ud cursor page total retries seen callIdx n hp hresp hr,
              go_netError_retry f sd ud cursor page total retries seen callIdx m hp hresp hr,
              ih m f sd ud cursor page total (retries + 1) seen (callIdx + 1)
                (by omega) (by omega)]
        · by_cases h429 : status = 429
          · by_cases hr : MAX_RETRIES ≤ retries + 1
            · rw [go_429_break f sd ud cursor page total retries seen callIdx n status body
                hp hresp h429 hr,
                go_429_break f sd ud cursor page total retries seen callIdx m status body
                hp hresp h429 hr]
            · have hr2 : ¬ 5 ≤ retries + 1 := hr
              have hdec : walkMeasure page (retries + 1) + 1 ≤ walkMeasure page retries := by
                unfold walkMeasure
                omega
              rw [go_429_retry f sd ud cursor page total retries seen callIdx n status body
                hp hresp h429 hr,
                go_429_retry f sd ud cursor page total retries seen callIdx m status body
                hp hresp h429 hr,
                ih m f sd ud cursor page total (retries + 1) seen (callIdx + 1)
                  (by omega) (by omega)]
          · by_cases h200 : status ≠ 200
            · rw [go_fatal f sd ud cursor page total retries seen callIdx n status body
                hp hresp h429 h200,
                go_fatal f sd ud cursor page total retries seen callIdx m status body
                hp hresp h429 h200]
            · by_cases hemp : body.tweets.isEmpty = true
              · rw [go_emptyPage f sd ud cursor page total retries seen callIdx n status body
                  hp hresp h429 h200 hemp,
                  go_emptyPage f sd ud cursor page total retries seen callIdx m status body
                  hp hresp h429 h200 hemp]
              · by_cases hnext : (!body.has_next_page || !(truthy body.next_cursor)) = true
                · rw [go_lastPage f sd ud cursor page total retries seen callIdx n status body
                    hp hresp h429 h200 hemp hnext,
                    go_lastPage f sd ud cursor page total retries seen callIdx m status body
                    hp hresp h429 h200 hemp hnext]
                · have hdec : walkMeasure (page + 1) 0 + 1 ≤ walkMeasure page retries := by
                    unfold walkMeasure
                    omega
                  rw [go_nextPage f sd ud cursor page total retries seen callIdx n status body
                    hp hresp h429 h200 hemp hnext,
                    go_nextPage f sd ud cursor page total retries seen callIdx m status body
                    hp hresp h429 h200 hemp hnext,
                    ih m f sd ud (body.next_cursor.getD "") (page + 1)
                      (processTweets body.tweets seen total).total 0
                      (processTweets body.tweets seen total).seen (callIdx + 1)
                      (by omega) (by omega)]
    · rw [go_dead f sd ud cursor page total retries seen callIdx (n + 1) hp,
        go_dead f sd ud cursor page total retries seen callIdx fuel2 hp]

end Scrape

namespace Scrape

/-- Adversarial fetcher that always reports another page and a non-empty
cursor, with a non-empty tweet list. -/
def alwaysMore : Fetcher := fun _ _ _ _ =>
  FetchResult.resp 200
    ⟨[⟨some "t", none, none, none, none, none, none, none, none⟩], true, some "c"⟩

set_option maxRecDepth 8000 in
/-- C8: the Window Walker terminates for every window and every sequence of
fetcher responses: the result is identical for any fuel of at least
`walkFuel` (the loop always exits through its stop conditions — empty
page, no next page or cursor, retry exhaustion, fatal status, or the
200-page cap — never by fuel), the number of fetcher calls is bounded, and
against a fetcher that always reports another page the loop stops after
exactly the 200-page safety cap. -/
theorem c8_walker_always_terminates :
    ∀ (f : Fetcher) (since_date until_date : Date) (seen : List String) (callIdx fuel : Nat),
      walkFuel ≤ fuel →
      (fetchWindowGo f since_date until_date "" 1 0 0 seen callIdx fuel
        = fetch_window f since_date until_date seen callIdx) ∧
      ((fetch_window f since_date until_date seen callIdx).calls ≤ walkFuel) ∧
      ((fetch_window alwaysMore ⟨2024, 6, 1⟩ ⟨2024, 7, 1⟩ [] 0).calls = 200) := by
  intro f since_date until_date seen callIdx fuel hf
  have hmeas : walkMeasure 1 0 = 1205 := by decide
  have hwf : walkFuel = 1205 := by decide
  refine ⟨?_, ?_, by decide⟩
  · exact fetchWindowGo_stable fuel walkFuel f since_date until_date "" 1 0 0 seen callIdx
      (by omega) (by omega)
  · exact fetchWindowGo_calls_le walkFuel f since_date until_date "" 1 0 0 seen callIdx

/-- Witness for C8 at a concrete fetcher and oversized fuel. -/
theorem c8_walker_always_terminates_witness :
    walkFuel ≤ 2000 ∧
    (fetchWindowGo alwaysEmptyPage ⟨2024, 6, 1⟩ ⟨2024, 7, 1⟩ "" 1 0 0 [] 0 2000
      = fetch_window alwaysEmptyPage ⟨2024, 6, 1⟩ ⟨2024, 7, 1⟩ [] 0) ∧
    ((fetch_window alwaysEmptyPage ⟨2024, 6, 1⟩ ⟨2024, 7, 1⟩ [] 0).calls ≤ walkFuel) ∧
    ((fetch_window alwaysMore ⟨2024, 6, 1⟩ ⟨2024, 7, 1⟩ [] 0).calls = 200) :=
  ⟨by decide,
    (c8_walker_always_terminates alwaysEmptyPage ⟨2024, 6, 1⟩ ⟨2024, 7, 1⟩ [] 0 2000
      (by decide)).1,
    (c8_walker_always_terminates alwaysEmptyPage ⟨2024, 6, 1⟩ ⟨2024, 7, 1⟩ [] 0 2000
      (by decide)).2.1,
    (c8_walker_always_terminates alwaysEmptyPage ⟨2024, 6, 1⟩ ⟨2024, 7, 1⟩ [] 0 2000
      (by decide)).2.2⟩

end Scrape

namespace Scrape

/-- Every truthy id occurring in a batch ends up in the seen set. -/
theorem processTweets_covers :
    ∀ (tweets : List RawTweet) (seen : List String) (total : Nat),
      ∀ tw ∈ tweets, ∀ tid, tw.id = some tid → tid ≠ "" →
        tid ∈ (processTweets tweets seen total).seen := by
  intro tweets
  induction tweets with
  | nil => intro seen total tw htw; cases htw
  | cons tw0 rest ih =>
    intro seen total tw htw tid htid hne
    rcases List.mem_cons.mp htw with h | h
    · subst h
      simp only [processTweets, htid]
      by_cases hsk : tid = "" ∨ tid ∈ seen
      · rw [if_pos hsk]
        rcases hsk with hsk | hsk
        · exact absurd hsk hne
        · exact processTweets_seen_mono rest seen total tid hsk
      · rw [if_neg hsk]
        exact processTweets_seen_mono rest (tid :: seen) (total + 1) tid
          (List.mem_cons_self _ _)
    · rcases htw0 : tw0.id with _ | tid0
      · simp only [processTweets, htw0]
        exact ih seen total tw h tid htid hne
      · simp only [processTweets, htw0]
        by_cases hsk : tid0 = "" ∨ tid0 ∈ seen
        · rw [if_pos hsk]
          exact ih seen total tw h tid htid hne
        · rw [if_neg hsk]
          exact ih (tid0 :: seen) (total + 1) tw h tid htid hne

/-- A batch whose truthy ids are all already seen writes nothing and
changes nothing. -/
theorem processTweets_noop :
    ∀ (tweets : List RawTweet) (seen : List String) (total : Nat),
      (∀ tw ∈ tweets, ∀ tid, tw.id = some tid → tid ≠ "" → tid ∈ seen) →
      processTweets tweets seen total = ⟨[], seen, total⟩ := by
  intro tweets
  induction tweets with
  | nil => intro seen total _; rfl
  | cons tw rest ih =>
    intro seen total hall
    rcases htw : tw.id with _ | tid
    · simp only [processTweets, htw]
      exact ih seen total (fun tw2 h2 => hall tw2 (List.mem_cons_of_mem _ h2))
    · have hsk : tid = "" ∨ tid ∈ seen := by
        by_cases he : tid = ""
        · exact Or.inl he
        · exact Or.inr (hall tw (List.mem_cons_self _ _) tid htw he)
      simp only [processTweets, htw, if_pos hsk]
      exact ih seen total (fun tw2 h2 => hall tw2 (List.mem_cons_of_mem _ h2))

/-- Unfolding: the orchestrator loop skips a covered window. -/
theorem runGo_skip (f : Fetcher) (covered : List (Nat × Nat)) (s u : Date)
    (rest : List (Date × Date)) (seen : List String) (total callIdx : Nat)
    (h : s.monthKey ∈ covered) :
    runGo f covered ((s, u) :: rest) seen total callIdx =
      runGo f covered rest seen total callIdx := by
  simp only [runGo, if_pos h]

/-- Unfolding: the orchestrator loop drains an uncovered window. -/
theorem runGo_walk (f : Fetcher) (covered : List (Nat × Nat)) (s u : Date)
    (rest : List (Date × Date)) (seen : List String) (total callIdx : Nat)
    (h : s.monthKey ∉ covered) :
    runGo f covered ((s, u) :: rest) seen total callIdx =
      ⟨(fetch_window f s u seen callIdx).rows ++
          (runGo f covered rest (fetch_window f s u seen callIdx).seen
            (total + (fetch_window f s u seen callIdx).total)
            (fetch_window f s u seen callIdx).nextCallIdx).newRows,
        (runGo f covered rest (fetch_window f s u seen callIdx).seen
          (total + (fetch_window f s u seen callIdx).total)
          (fetch_window f s u seen callIdx).nextCallIdx).seen,
        (runGo f covered rest (fetch_window f s u seen callIdx).seen
          (total + (fetch_window f s u seen callIdx).total)
          (fetch_window f s u seen callIdx).nextCallIdx).total,
        (s, u) :: (runGo f covered rest (fetch_window f s u seen callIdx).seen
          (total + (fetch_window f s u seen callIdx).total)
          (fetch_window f s u seen callIdx).nextCallIdx).queried,
        (runGo f covered rest (fetch_window f s u seen callIdx).seen
          (total + (fetch_window f s u seen callIdx).total)
          (fetch_window f s u seen callIdx).nextCallIdx).nextCallIdx⟩ := by
  simp only [runGo, if_neg h]

/-- Membership in the seen set built by the CSV row loop. -/
theorem loadGo_seen_mem :
    ∀ (rows : List StoreRow) (seen : List String) (cov : List (Nat × Nat)) (x : String),
      x ∈ (loadGo rows seen cov).seen ↔
        x ∈ seen ∨ ∃ row ∈ rows, row.id = some x ∧ x ≠ "" := by
  intro rows
  induction rows with
  | nil =>
    intro seen cov x
    simp [loadGo]
  | cons row rest ih =>
    intro seen cov x
    rcases hid : row.id with _ | tid
    · have hh : loadGo (row :: rest) seen cov =
          loadGo rest seen (match row.createdAt with
            | some c =>
              if c = "" then cov
              else
                match parse_twitter_datetime c with
                | some d => if d.monthKey ∈ cov then cov else d.monthKey :: cov
                | none => cov
            | none => cov) := by
        simp only [loadGo, hid]
      rw [hh, ih]
      constructor
      · intro h
        rcases h with h | ⟨r2, hr2, hp⟩
        · exact Or.inl h
        · exact Or.inr ⟨r2, List.mem_cons_of_mem _ hr2, hp⟩
      · intro h
        rcases h with h | ⟨r2, hr2, hp1, hp2⟩
        · exact Or.inl h
        · rcases List.mem_cons.mp hr2 with h2 | h2
          · subst h2
            rw [hid] at hp1
            cases hp1
          · exact Or.inr ⟨r2, h2, hp1, hp2⟩
    · by_cases hsk : tid = "" ∨ tid ∈ seen
      · have hh : loadGo (row :: rest) seen cov =
            loadGo rest seen (match row.createdAt with
              | some c =>
                if c = "" then cov
                else
                  match parse_twitter_datetime c with
                  | some d => if d.monthKey ∈ cov then cov else d.monthKey :: cov
                  | none => cov
              | none => cov) := by
          simp only [loadGo, hid, if_pos hsk]
        rw [hh, ih]
        constructor
        · intro h
          rcases h with h | ⟨r2, hr2, hp⟩
          · exact Or.inl h
          · exact Or.inr ⟨r2, List.mem_cons_of_mem _ hr2, hp⟩
        · intro h
          rcases h with h | ⟨r2, hr2, hp1, hp2⟩
          · exact Or.inl h
          · rcases List.mem_cons.mp hr2 with h2 | h2
            · subst h2
              rw [hid] at hp1
              injection hp1 with he
              subst he
              rcases hsk with hsk | hsk
              · exact absurd hsk hp2
              · exact Or.inl hsk
            · exact Or.inr ⟨r2, h2, hp1, hp2⟩
      · have hh : loadGo (row :: rest) seen cov =
            loadGo rest (tid :: seen) (match row.createdAt with
              | some c =>
                if c = "" then cov
                else
                  match parse_twitter_datetime c with
                  | some d => if d.monthKey ∈ cov then cov else d.monthKey :: cov
                  | none => cov
              | none => cov) := by
          simp only [loadGo, hid, if_neg hsk]
        push_neg at hsk
        rw [hh, ih]
        constructor
        · intro h
          rcases h with h | ⟨r2, hr2, hp⟩
          · rcases List.mem_cons.mp h with h2 | h2
            · subst h2
              exact Or.inr ⟨row, List.mem_cons_self _ _, hid, hsk.1⟩
            · exact Or.inl h2
          · exact Or.inr ⟨r2, List.mem_cons_of_mem _ hr2, hp⟩
        · intro h
          rcases h with h | ⟨r2, hr2, hp1, hp2⟩
          · exact Or.inl (List.mem_cons_of_mem _ h)
          · rcases List.mem_cons.mp hr2 with h2 | h2
            · subst h2
              rw [hid] at hp1
              injection hp1 with he
              subst he
              exact Or.inl (List.mem_cons_self _ _)
            · exact Or.inr ⟨r2, h2, hp1, hp2⟩

end Scrape

namespace Scrape

/-- Membership in the covered-month set built by the CSV row loop. -/
theorem loadGo_cov_mem :
    ∀ (rows : List StoreRow) (seen : List String) (cov : List (Nat × Nat)) (mk : Nat × Nat),
      mk ∈ (loadGo rows seen cov).covered ↔
        mk ∈ cov ∨ ∃ row ∈ rows, ∃ c, row.createdAt = some c ∧ c ≠ "" ∧
          ∃ d, parse_twitter_datetime c = some d ∧ d.monthKey = mk := by
  intro rows
  induction rows with
  | nil =>
    intro seen cov mk
    simp [loadGo]
  | cons row rest ih =>
    intro seen cov mk
    rcases hca : row.createdAt with _ | c
    · simp only [loadGo, hca]
      rw [ih]
      constructor
      · intro h
        rcases h with h | ⟨r2, hr2, hp⟩
        · exact Or.inl h
        · exact Or.inr ⟨r2, List.mem_cons_of_mem _ hr2, hp⟩
      · intro h
        rcases h with h | ⟨r2, hr2, c2, hp1, hp⟩
        · exact Or.inl h
        · rcases List.mem_cons.mp hr2 with h2 | h2
          · subst h2
            rw [hca] at hp1
            cases hp1
          · exact Or.inr ⟨r2, h2, c2, hp1, hp⟩
    · by_cases hce : c = ""
      · simp only [loadGo, hca, if_pos hce]
        rw [ih]
        constructor
        · intro h
          rcases h with h | ⟨r2, hr2, hp⟩
          · exact Or.inl h
          · exact Or.inr ⟨r2, List.mem_cons_of_mem _ hr2, hp⟩
        · intro h
          rcases h with h | ⟨r2, hr2, c2, hp1, hp2, hp⟩
          · exact Or.inl h
          · rcases List.mem_cons.mp hr2 with h2 | h2
            · subst h2
              rw [hca] at hp1
              injection hp1 with he
              subst he
              exact absurd hce hp2
            · exact Or.inr ⟨r2, h2, c2, hp1, hp2, hp⟩
      · rcases hpar : parse_twitter_datetime c with _ | d
        · simp only [loadGo, hca, if_neg hce, hpar]
          rw [ih]
          constructor
          · intro h
            rcases h with h | ⟨r2, hr2, hp⟩
            · exact Or.inl h
            · exact Or.inr ⟨r2, List.mem_cons_of_mem _ hr2, hp⟩
          · intro h
            rcases h with h | ⟨r2, hr2, c2, hp1, hp2, d2, hp3, hp4⟩
            · exact Or.inl h
            · rcases List.mem_cons.mp hr2 with h2 | h2
              · subst h2
                rw [hca] at hp1
                injection hp1 with he
                subst he
                rw [hpar] at hp3
                cases hp3
              · exact Or.inr ⟨r2, h2, c2, hp1, hp2, d2, hp3, hp4⟩
        · by_cases hin : d.monthKey ∈ cov
          · simp only [loadGo, hca, if_neg hce, hpar, if_pos hin]
            rw [ih]
            constructor
            · intro h
              rcases h with h | ⟨r2, hr2, hp⟩
              · exact Or.inl h
              · exact Or.inr ⟨r2, List.mem_cons_of_mem _ hr2, hp⟩
            · intro h
              rcases h with h | ⟨r2, hr2, c2, hp1, hp2, d2, hp3, hp4⟩
              · exact Or.inl h
              · rcases List.mem_cons.mp hr2 with h2 | h2
                · subst h2
                  rw [hca] at hp1
                  injection hp1 with he
                  subst he
                  rw [hpar] at hp3
                  injection hp3 with hd
                  subst hd
                  subst hp4
                  exact Or.inl hin
                · exact Or.inr ⟨r2, h2, c2, hp1, hp2, d2, hp3, hp4⟩
          · simp only [loadGo, hca, if_neg hce, hpar, if_neg hin]
            rw [ih]
            constructor
            · intro h
              rcases h with h | ⟨r2, hr2, hp⟩
              · rcases List.mem_cons.mp h with h2 | h2
                · subst h2
                  exact Or.inr ⟨row, List.mem_cons_self _ _, c, hca, hce, d, hpar, rfl⟩
                · exact Or.inl h2
              · exact Or.inr ⟨r2, List.mem_cons_of_mem _ hr2, hp⟩
            · intro h
              rcases h with h | ⟨r2, hr2, c2, hp1, hp2, d2, hp3, hp4⟩
              · exact Or.inl (List.mem_cons_of_mem _ h)
              · rcases List.mem_cons.mp hr2 with h2 | h2
                · subst h2
                  rw [hca] at hp1
                  injection hp1 with he
                  subst he
                  rw [hpar] at hp3
                  injection hp3 with hd
                  subst hd
                  subst hp4
                  exact Or.inl (List.mem_cons_self _ _)
                · exact Or.inr ⟨r2, h2, c2, hp1, hp2, d2, hp3, hp4⟩

end Scrape

namespace Scrape

/-- Replay lemma for one window: against a fetcher whose responses do not
depend on the call index, a second walk of the same window starting from a
seen set that contains everything the first walk ended with emits no rows
and leaves its seen set and total unchanged. -/
theorem fetchWindowGo_sync :
    ∀ (fuel : Nat) (f : Fetcher) (sd ud : Date) (cursor : String) (page : Nat)
      (t1 t2 retries : Nat) (seen1 s2 : List String) (c1 c2 : Nat),
      (∀ i j cu, f i sd ud cu = f j sd ud cu) →
      (∀ x ∈ (fetchWindowGo f sd ud cursor page t1 retries seen1 c1 fuel).seen, x ∈ s2) →
      (fetchWindowGo f sd ud cursor page t2 retries s2 c2 fuel).rows = [] ∧
      (fetchWindowGo f sd ud cursor page t2 retries s2 c2 fuel).seen = s2 ∧
      (fetchWindowGo f sd ud cursor page t2 retries s2 c2 fuel).total = t2 := by
  intro fuel
  induction fuel with
  | zero =>
    intro f sd ud cursor page t1 t2 retries seen1 s2 c1 c2 _ _
    exact ⟨rfl, rfl, rfl⟩
  | succ n ih =>
    intro f sd ud cursor page t1 t2 retries seen1 s2 c1 c2 hdet hsub
    by_cases hp : page ≤ maxPages
    · have hr12 : f c1 sd ud cursor = f c2 sd ud cursor := hdet c1 c2 cursor
      rcases hresp : f c2 sd ud cursor with _ | _ | ⟨status, body⟩
      · have hresp1 : f c1 sd ud cursor = FetchResult.timeout := hr12.trans hresp
        by_cases hr : MAX_RETRIES ≤ retries + 1
        · rw [go_timeout_break f sd ud cursor page t2 retries s2 c2 n hp hresp hr]
          exact ⟨rfl, rfl, rfl⟩
        · rw [go_timeout_retry f sd ud cursor page t2 retries s2 c2 n hp hresp hr]
          rw [go_timeout_retry f sd ud cursor page t1 retries seen1 c1 n hp hresp1 hr] at hsub
          exact ih f sd ud cursor page t1 t2 (retries + 1) seen1 s2 (c1 + 1) (c2 + 1)
            hdet (fun x hx => hsub x hx)
      · have hresp1 : f c1 sd ud cursor = FetchResult.netError := hr12.trans hresp
        by_cases hr : MAX_RETRIES ≤ retries + 1
        · rw [go_netError_break f sd ud cursor page t2 retries s2 c2 n hp hresp hr]
          exact ⟨rfl, rfl, rfl⟩
        · rw [go_netError_retry f sd ud cursor page t2 retries s2 c2 n hp hresp hr]
          rw [go_netError_retry f sd ud cursor page t1 retries seen1 c1 n hp hresp1 hr] at hsub
          exact ih f sd ud cursor page t1 t2 (retries + 1) seen1 s2 (c1 + 1) (c2 + 1)
            hdet (fun x hx => hsub x hx)
      · have hresp1 : f c1 sd ud cursor = FetchResult.resp status body := hr12.trans hresp
        by_cases h429 : status = 429
        · by_cases hr : MAX_RETRIES ≤ retries + 1
          · rw [go_429_break f sd ud cursor page t2 retries s2 c2 n status body
              hp hresp h429 hr]
            exact ⟨rfl, rfl, rfl⟩
          · rw [go_429_retry f sd ud cursor page t2 retries s2 c2 n status body
              hp hresp h429 hr]
            rw [go_429_retry f sd ud cursor page t1 retries seen1 c1 n status body
              hp hresp1 h429 hr] at hsub
            exact ih f sd ud cursor page t1 t2 (retries + 1) seen1 s2 (c1 + 1) (c2 + 1)
              hdet (fun x hx => hsub x hx)
        · by_cases h200 : status ≠ 200
          · rw [go_fatal f sd ud cursor page t2 retries s2 c2 n status body
              hp hresp h429 h200]
            exact ⟨rfl, rfl, rfl⟩
          · by_cases hemp : body.tweets.isEmpty = true
            · rw [go_emptyPage f sd ud cursor page t2 retries s2 c2 n status body
                hp hresp h429 h200 hemp]
              exact ⟨rfl, rfl, rfl⟩
            · by_cases hnext : (!body.has_next_page || !(truthy body.next_cursor)) = true
              · rw [go_lastPage f sd ud cursor page t1 retries seen1 c1 n status body
                  hp hresp1 h429 h200 hemp hnext] at hsub
                have hcov : ∀ tw ∈ body.tweets, ∀ tid, tw.id = some tid → tid ≠ "" →
                    tid ∈ s2 := by
                  intro tw htw tid htid hne
                  exact hsub tid
                    (processTweets_covers body.tweets seen1 t1 tw htw tid htid hne)
                have hnoop := processTweets_noop body.tweets s2 t2 hcov
                rw [go_lastPage f sd ud cursor page t2 retries s2 c2 n status body
                  hp hresp h429 h200 hemp hnext, hnoop]
                exact ⟨rfl, rfl, rfl⟩
              · rw [go_nextPage f sd ud cursor page t1 retries seen1 c1 n status body
                  hp hresp1 h429 h200 hemp hnext] at hsub
                have hcov : ∀ tw ∈ body.tweets, ∀ tid, tw.id = some tid → tid ≠ "" →
                    tid ∈ s2 := by
                  intro tw htw tid htid hne
                  have h1 : tid ∈ (processTweets body.tweets seen1 t1).seen :=
                    processTweets_covers body.tweets seen1 t1 tw htw tid htid hne
                  have h2 : tid ∈ (fetchWindowGo f sd ud (body.next_cursor.getD "")
                      (page + 1) (processTweets body.tweets seen1 t1).total 0
                      (processTweets body.tweets seen1 t1).seen (c1 + 1) n).seen :=
                    (fetchWindowGo_spec n f sd ud (body.next_cursor.getD "")
                      (page + 1) (processTweets body.tweets seen1 t1).total 0
                      (processTweets body.tweets seen1 t1).seen (c1 + 1)).1 tid h1
                  exact hsub tid h2
                have hnoop := processTweets_noop body.tweets s2 t2 hcov
                rw [go_nextPage f sd ud cursor page t2 retries s2 c2 n status body
                  hp hresp h429 h200 hemp hnext, hnoop]
                obtain ⟨e1, e2, e3⟩ := ih f sd ud (body.next_cursor.getD "") (page + 1)
                  (processTweets body.tweets seen1 t1).total t2 0
                  (processTweets body.tweets seen1 t1).seen s2 (c1 + 1) (c2 + 1)
                  hdet (fun x hx => hsub x hx)
                exact ⟨e1, e2, e3⟩
    · rw [go_dead f sd ud cursor page t2 retries s2 c2 (n + 1) hp]
      exact ⟨rfl, rfl, rfl⟩

end Scrape

namespace Scrape

/-- Replay lemma for the window loop: with a call-index-independent
fetcher, a coverage set at least as large, and a starting seen set
containing everything the first run ended with, the second pass over the
same windows appends no rows and leaves its seen set unchanged. -/
theorem runGo_sync :
    ∀ (ws : List (Date × Date)) (f : Fetcher) (cov1 cov2 : List (Nat × Nat))
      (s1 s2 : List String) (t1 t2 c1 c2 : Nat),
      (∀ i j sd ud cu, f i sd ud cu = f j sd ud cu) →
      (∀ mk ∈ cov1, mk ∈ cov2) →
      (∀ x ∈ (runGo f cov1 ws s1 t1 c1).seen, x ∈ s2) →
      (runGo f cov2 ws s2 t2 c2).newRows = [] ∧ (runGo f cov2 ws s2 t2 c2).seen = s2 := by
  intro ws
  induction ws with
  | nil =>
    intro f cov1 cov2 s1 s2 t1 t2 c1 c2 _ _ _
    exact ⟨rfl, rfl⟩
  | cons w rest ih =>
    intro f cov1 cov2 s1 s2 t1 t2 c1 c2 hdet hmono hsub
    obtain ⟨sd_, ud_⟩ := w
    by_cases h2 : sd_.monthKey ∈ cov2
    · rw [runGo_skip f cov2 sd_ ud_ rest s2 t2 c2 h2]
      by_cases h1 : sd_.monthKey ∈ cov1
      · rw [runGo_skip f cov1 sd_ ud_ rest s1 t1 c1 h1] at hsub
        exact ih f cov1 cov2 s1 s2 t1 t2 c1 c2 hdet hmono hsub
      · rw [runGo_walk f cov1 sd_ ud_ rest s1 t1 c1 h1] at hsub
        exact ih f cov1 cov2 (fetch_window f sd_ ud_ s1 c1).seen s2
          (t1 + (fetch_window f sd_ ud_ s1 c1).total) t2
          (fetch_window f sd_ ud_ s1 c1).nextCallIdx c2 hdet hmono
          (fun x hx => hsub x hx)
    · have h1 : sd_.monthKey ∉ cov1 := fun hc => h2 (hmono _ hc)
      rw [runGo_walk f cov1 sd_ ud_ rest s1 t1 c1 h1] at hsub
      rw [runGo_walk f cov2 sd_ ud_ rest s2 t2 c2 h2]
      have hwsub : ∀ x ∈ (fetch_window f sd_ ud_ s1 c1).seen, x ∈ s2 := by
        intro x hx
        have hx2 : x ∈ (runGo f cov1 rest (fetch_window f sd_ ud_ s1 c1).seen
            (t1 + (fetch_window f sd_ ud_ s1 c1).total)
            (fetch_window f sd_ ud_ s1 c1).nextCallIdx).seen :=
          (runGo_spec rest f cov1 (fetch_window f sd_ ud_ s1 c1).seen
            (t1 + (fetch_window f sd_ ud_ s1 c1).total)
            (fetch_window f sd_ ud_ s1 c1).nextCallIdx).1 x hx
        exact hsub x hx2
      obtain ⟨w0, wseen, _⟩ := fetchWindowGo_sync walkFuel f sd_ ud_ "" 1 0 0 0 s1 s2 c1 c2
        (fun i j cu => hdet i j sd_ ud_ cu) (fun x hx => hwsub x hx)
      have w0h : (fetch_window f sd_ ud_ s2 c2).rows = [] := w0
      have wseenh : (fetch_window f sd_ ud_ s2 c2).seen = s2 := wseen
      rw [w0h, wseenh]
      obtain ⟨ihrows, ihseen⟩ := ih f cov1 cov2 (fetch_window f sd_ ud_ s1 c1).seen s2
        (t1 + (fetch_window f sd_ ud_ s1 c1).total)
        (t2 + (fetch_window f sd_ ud_ s2 c2).total)
        (fetch_window f sd_ ud_ s1 c1).nextCallIdx
        (fetch_window f sd_ ud_ s2 c2).nextCallIdx hdet hmono
        (fun x hx => hsub x hx)
      constructor
      · show [] ++ (runGo f cov2 rest s2 (t2 + (fetch_window f sd_ ud_ s2 c2).total)
            (fetch_window f sd_ ud_ s2 c2).nextCallIdx).newRows = []
        rw [List.nil_append]
        exact ihrows
      · exact ihseen

/-- C6: running the collection twice in succession over the same account
and range, with a remote API answering every query identically both times
(independently of the call index) and a store whose rows never carry a
parseable timestamp without a truthy id (true of every file this program
writes, and of an absent file), makes the second run append zero records:
the persisted record set is unchanged. -/
theorem c6_second_run_appends_nothing
    (f : Fetcher) (start_date end_date : Date) (fileExists : Bool) (store : List StoreRow)
    (hdet : ∀ i j sd ud cu, f i sd ud cu = f j sd ud cu)
    (hsane : ∀ row ∈ store, ∀ c, row.createdAt = some c → c ≠ "" →
      ∀ d, parse_twitter_datetime c = some d →
        ∃ tid, row.id = some tid ∧ tid ≠ "") :
    (fetch_all_tweets f start_date end_date true
      (finalStore (fetch_all_tweets f start_date end_date fileExists store) store)).newRows
      = [] := by
  refine (runGo_sync (generate_monthly_windows start_date end_date) f
    (load_existing_ids fileExists store).covered
    (load_existing_ids true
      (finalStore (fetch_all_tweets f start_date end_date fileExists store) store)).covered
    (load_existing_ids fileExists store).seen
    (load_existing_ids true
      (finalStore (fetch_all_tweets f start_date end_date fileExists store) store)).seen
    (load_existing_ids fileExists store).seen.length
    (load_existing_ids true
      (finalStore (fetch_all_tweets f start_date end_date fileExists store) store)).seen.length
    0 0 hdet ?_ ?_).1
  · -- every month covered before run 1 is still covered when run 2 loads
    intro mk hmk
    cases fileExists with
    | false =>
      have h0 : (load_existing_ids false store).covered = [] := rfl
      rw [h0] at hmk
      cases hmk
    | true =>
      have hmk2 : mk ∈ (loadGo store [] []).covered := hmk
      have hex := (loadGo_cov_mem store [] [] mk).1 hmk2
      obtain ⟨row, hrow, c, hca, hcne, d, hpar, hdmk⟩ := hex.resolve_left (by simp)
      rcases hseencase : (load_existing_ids true store).seen with _ | ⟨a, as⟩
      · obtain ⟨tid, hid, htne⟩ := hsane row hrow c hca hcne d hpar
        have hmem : tid ∈ (loadGo store [] []).seen :=
          (loadGo_seen_mem store [] [] tid).2 (Or.inr ⟨row, hrow, hid, htne⟩)
        have h0 : tid ∈ (load_existing_ids true store).seen := hmem
        rw [hseencase] at h0
        cases h0
      · have hmode : (fetch_all_tweets f start_date end_date true store).mode
            = FileMode.append := by
          show (if true && !(load_existing_ids true store).seen.isEmpty
              then FileMode.append else FileMode.write) = FileMode.append
          rw [hseencase]
          rfl
        have hrow1 : row ∈ finalStore (fetch_all_tweets f start_date end_date true store)
            store := by
          show row ∈ (if (fetch_all_tweets f start_date end_date true store).mode
              = FileMode.append then store else []) ++
            (fetch_all_tweets f start_date end_date true store).newRows.map toStoreRow
          rw [hmode, if_pos rfl]
          exact List.mem_append.mpr (Or.inl hrow)
        exact (loadGo_cov_mem
          (finalStore (fetch_all_tweets f start_date end_date true store) store) [] [] mk).2
          (Or.inr ⟨row, hrow1, c, hca, hcne, d, hpar, hdmk⟩)
  · -- everything run 1 has seen is loaded back by run 2
    intro x hx
    rcases (runGo_spec (generate_monthly_windows start_date end_date) f
      (load_existing_ids fileExists store).covered
      (load_existing_ids fileExists store).seen
      (load_existing_ids fileExists store).seen.length 0).2.2.2 x hx with hx1 | hx2
    · cases fileExists with
      | false =>
        have h0 : (load_existing_ids false store).seen = [] := rfl
        rw [h0] at hx1
        cases hx1
      | true =>
        have hx1b : x ∈ (loadGo store [] []).seen := hx1
        obtain ⟨row, hrow, hid, hne⟩ :=
          ((loadGo_seen_mem store [] [] x).1 hx1b).resolve_left (by simp)
        have hmode : (fetch_all_tweets f start_date end_date true store).mode
            = FileMode.append := by
          show (if true && !(load_existing_ids true store).seen.isEmpty
              then FileMode.append else FileMode.write) = FileMode.append
          rcases hseencase : (load_existing_ids true store).seen with _ | ⟨a, as⟩
          · rw [hseencase] at hx1
            cases hx1
          · rfl
        have hrow1 : row ∈ finalStore (fetch_all_tweets f start_date end_date true store)
            store := by
          show row ∈ (if (fetch_all_tweets f start_date end_date true store).mode
              = FileMode.append then store else []) ++
            (fetch_all_tweets f start_date end_date true store).newRows.map toStoreRow
          rw [hmode, if_pos rfl]
          exact List.mem_append.mpr (Or.inl hrow)
        exact (loadGo_seen_mem
          (finalStore (fetch_all_tweets f start_date end_date true store) store) [] [] x).2
          (Or.inr ⟨row, hrow1, hid, hne⟩)
    · simp only [List.mem_map] at hx2
      obtain ⟨r, hr, hrid⟩ := hx2
      have hne : r.id ≠ "" :=
        ((runGo_spec (generate_monthly_windows start_date end_date) f
          (load_existing_ids fileExists store).covered
          (load_existing_ids fileExists store).seen
          (load_existing_ids fileExists store).seen.length 0).2.1 r hr).2.2
      have hrow1 : toStoreRow r ∈
          finalStore (fetch_all_tweets f start_date end_date fileExists store) store := by
        show toStoreRow r ∈ (if (fetch_all_tweets f start_date end_date fileExists store).mode
            = FileMode.append then store else []) ++
          (fetch_all_tweets f start_date end_date fileExists store).newRows.map toStoreRow
        exact List.mem_append.mpr (Or.inr (List.mem_map.mpr ⟨r, hr, rfl⟩))
      subst hrid
      exact (loadGo_seen_mem
        (finalStore (fetch_all_tweets f start_date end_date fileExists store) store) [] []
        r.id).2 (Or.inr ⟨toStoreRow r, hrow1, rfl, hne⟩)

/-- Witness for C6: a first run from no file against a deterministic
fetcher that always returns record "123", then a second run over the
resulting store, which appends nothing. -/
theorem c6_second_run_appends_nothing_witness :
    (fetch_all_tweets always123 ⟨2024, 6, 1⟩ ⟨2024, 8, 1⟩ true
      (finalStore (fetch_all_tweets always123 ⟨2024, 6, 1⟩ ⟨2024, 8, 1⟩ false []) [])).newRows
      = [] :=
  c6_second_run_appends_nothing always123 ⟨2024, 6, 1⟩ ⟨2024, 8, 1⟩ false []
    (fun _ _ _ _ _ => rfl)
    (fun row hrow => absurd hrow (List.not_mem_nil row))

end Scrape
